import Mathlib

/-!
# libhdfs thread-local storage (POSIX): a verification development

Shallow embedding of `libhdfs/os/posix/thread_local_storage.c`:

* `hdfsThreadDestructor`, `threadLocalStorageCreate`, `threadLocalStorageGet`,
  `threadLocalStorageSet` are translated statement by statement;
* pointers are natural numbers with `0` for `NULL`, `int`/`jint` codes are integers;
* the process state (`Proc`) holds the two file-level statics, the state of the POSIX
  thread-specific-data tables, the C heap and the list of calls made to external
  collaborators (`Effect`);
* answers that only the environment can give (does `malloc` succeed, does
  `pthread_key_create` succeed and which key does it hand out, does `pthread_setspecific`
  run out of memory, can `*env` be read and what is there, what does `GetJavaVM` return)
  are explicit arguments;
* the heap is one address space: a live block is a text buffer or a state record;
* reading through a pointer that is `NULL` or does not point to what is read, calling
  through a function table that is none, and freeing what is not a live block are
  undefined behaviour in C and are a `Fault` here.
-/

namespace Hdfs

/-! ## Data model -/

/-- Modelled from the spec: `struct ThreadLocalState` is declared in the header
`os/thread_local_storage.h`, which is not part of the sources at hand. Section 3 of the
specification lists its three fields; the source file reads and writes exactly these.
`env` is a `JNIEnv *`, the two other fields are `char *`; `0` is `NULL`. -/
structure ThreadLocalState where
  env : Nat
  lastExceptionStackTrace : Nat
  lastExceptionRootCause : Nat
deriving DecidableEq, Repr

/-- A live block of the C heap: a text buffer (`char *`) or a state record. -/
inductive Block where
  | text
  | state (s : ThreadLocalState)
deriving DecidableEq, Repr

/-- The four diagnostics the file prints to `stderr`, named by the function that prints. -/
inductive Diag where
  | getJavaVMFailed
  | createOutOfMemory
  | keyCreateFailed
  | setspecificFailed
deriving DecidableEq, Repr

/-- Calls to external collaborators that are recorded in the log, in the order they are
made. `pthread_getspecific` and `pthread_setspecific` are not recorded: what they do is
the content of the table `specific`. -/
inductive Effect where
  | pthread_key_create (ret : Int) (key : Nat)
  | malloc (addr : Nat)
  | free (a : Nat)
  | fprintf (d : Diag) (code : Int)
  | GetJavaVM (env : Nat)
  | ExceptionDescribe (env : Nat)
  | DetachCurrentThread (vm : Nat)
deriving DecidableEq, Repr

/-- Undefined behaviour reached by the C code: a read through `NULL`; a read through a
record pointer that does not point to a live record; a read of `*env` through a handle
that does not point to readable memory; a call through a function table that is not one;
a `free` of something that is not a live block. -/
inductive Fault where
  | nullDeref
  | danglingDeref
  | wildHandle
  | wildCall
  | badFree
deriving DecidableEq, Repr

/-- Point update of a table indexed by natural numbers. -/
def upd {α : Type} (f : Nat → α) (a : Nat) (v : α) : Nat → α :=
  fun x => if x = a then v else f x

/-- Process state:
* `gTlsKey`, `gTlsKeyInitialized`: the two statics of the file (lines 26-30);
* `keys k`: key `k` is currently allocated in the POSIX key table of the process;
* `specific k t`: the value thread `t` has associated with key `k`;
* `heap a`: the live block at address `a`, if any;
* `log`: the recorded external calls made so far, oldest first. -/
structure Proc where
  gTlsKey : Nat
  gTlsKeyInitialized : Int
  keys : Nat → Bool
  specific : Nat → Nat → Nat
  heap : Nat → Option Block
  log : List Effect

/-- State of the process when the library is loaded: both statics are zero-initialised,
nothing has been logged. The key table and the heap are whatever the rest of the process
has made of them. -/
def Proc.boot (keys : Nat → Bool) (specific : Nat → Nat → Nat)
    (heap : Nat → Option Block) : Proc :=
  { gTlsKey := 0, gTlsKeyInitialized := 0, keys := keys, specific := specific,
    heap := heap, log := [] }

/-- A process in which nobody has allocated a thread-specific key or a record yet. -/
def Proc.fresh : Proc :=
  Proc.boot (fun _ => false) (fun _ _ => 0) (fun _ => none)

/-- Record one external call. -/
def Proc.emit (p : Proc) (e : Effect) : Proc :=
  { p with log := p.log ++ [e] }

/-! ## External collaborators -/

/-- Answer of the C allocator to `malloc(sizeof(struct ThreadLocalState))`: the address
returned (`0` when the allocation fails) and the indeterminate content of the block. -/
structure MallocOutcome where
  addr : Nat
  junk : ThreadLocalState

/-- Answer of the thread library to `pthread_key_create`: the return code and, when the
code is `0`, the key handed out. -/
structure KeyCreateOutcome where
  ret : Int
  key : Nat

/-- The embedded runtime as seen through a `JNIEnv *` handle `env`.
* `table env` is what reading `*env` gives: the function table the handle points to
  (`0` for `NULL`), or nothing when the handle does not point to readable memory;
* `GetJavaVM env` is what the call `(*env)->GetJavaVM(env, &vm)` gives: the return code
  and the value stored in `vm`, or nothing when `*env` is not a function table of the
  runtime and the call cannot be made. A VM stored with code `0` and a table through which
  `GetJavaVM` could be called are taken to be usable for `DetachCurrentThread` and
  `ExceptionDescribe`. -/
structure Jni where
  table : Nat → Option Nat
  GetJavaVM : Nat → Option (Int × Nat)

/-- POSIX error code `EINVAL`. -/
def EINVAL : Int := 22

/-- POSIX `pthread_key_create(&cell, destructor)`. On success the key is allocated, written
to the cell and `NULL` is associated with it in all threads; on failure nothing changes.
Returns the code and the new content of the cell. -/
def pthread_key_create (o : KeyCreateOutcome) (cell : Nat) (p : Proc) : Int × Nat × Proc :=
  let p := p.emit (.pthread_key_create o.ret o.key)
  if o.ret ≠ 0 then (o.ret, cell, p)
  else (0, o.key, { p with keys := upd p.keys o.key true,
                           specific := upd p.specific o.key (fun _ => 0) })

/-- POSIX `pthread_getspecific(key)` called by thread `tid`: the value bound to the key in
the calling thread, `NULL` when the key is not allocated. -/
def pthread_getspecific (key tid : Nat) (p : Proc) : Nat :=
  if p.keys key then p.specific key tid else 0

/-- POSIX `pthread_setspecific(key, value)` called by thread `tid`. `EINVAL` when the key
is not allocated; otherwise `nomem` is the answer of the environment (`0`: enough memory,
anything else: the error code returned), and on `0` the value is bound to the key in the
calling thread only. -/
def pthread_setspecific (key tid value : Nat) (nomem : Int) (p : Proc) : Int × Proc :=
  if p.keys key = false then (EINVAL, p)
  else if nomem ≠ 0 then (nomem, p)
  else (0, { p with specific := upd p.specific key (upd (p.specific key) tid value) })

/-- Read through a `struct ThreadLocalState *`. -/
def Proc.deref (p : Proc) (v : Nat) : Except Fault ThreadLocalState :=
  if v = 0 then .error .nullDeref
  else match p.heap v with
    | some (.state s) => .ok s
    | _ => .error .danglingDeref

/-- Read through a `struct ThreadLocalState *`; a fault keeps the state it occurred in. -/
def Proc.read (p : Proc) (v : Nat) : Except (Fault × Proc) ThreadLocalState :=
  match p.deref v with
  | .error f => .error (f, p)
  | .ok s => .ok s

/-- C `free(a)`: the call is recorded; `free(NULL)` does nothing; otherwise `a` has to be
a live block, which stops being live. -/
def cfree (a : Nat) (p : Proc) : Except (Fault × Proc) Proc :=
  let p := p.emit (.free a)
  if a = 0 then .ok p
  else match p.heap a with
    | none => .error (.badFree, p)
    | some _ => .ok { p with heap := upd p.heap a none }

/-! ## The four functions of the file -/

/-- Lines 45-55 of `hdfsThreadDestructor`: detach the current thread from the JVM. The
test on line 46 reads `*env` when `env` is not `NULL`. -/
def detachFromJvm (jni : Jni) (env : Nat) (p : Proc) : Except (Fault × Proc) Proc :=
  if env ≠ 0 then
    match jni.table env with
    | none => .error (.wildHandle, p)
    | some table =>
      if table ≠ 0 then
        let p := p.emit (.GetJavaVM env)
        match jni.GetJavaVM env with
        | none => .error (.wildCall, p)
        | some r =>
          if r.1 ≠ 0 then
            .ok ((p.emit (.fprintf .getJavaVMFailed r.1)).emit (.ExceptionDescribe env))
          else
            .ok (p.emit (.DetachCurrentThread r.2))
      else .ok p
  else .ok p

/-- Lines 57-62 of `hdfsThreadDestructor`: free the exception strings, then the state
itself. Each of the lines 58 and 59 reads its field through `state`. -/
def freeStringsAndState (v : Nat) (p : Proc) : Except (Fault × Proc) Proc :=
  match p.read v with
  | .error e => .error e
  | .ok state =>
    match (if state.lastExceptionStackTrace ≠ 0
        then cfree state.lastExceptionStackTrace p else .ok p) with
    | .error e => .error e
    | .ok p =>
      match p.read v with
      | .error e => .error e
      | .ok state =>
        match (if state.lastExceptionRootCause ≠ 0
            then cfree state.lastExceptionRootCause p else .ok p) with
        | .error e => .error e
        | .ok p => cfree v p

/-- Source function `void hdfsThreadDestructor(void *v)` (lines 38-63), statement by
statement: line 42 reads `state->env`, whatever `v` is; then lines 45-55; then lines
57-62. The result is the state in which the function returns, or the fault it runs into
with the state reached at that point. -/
def hdfsThreadDestructorRun (jni : Jni) (v : Nat) (p : Proc) : Except (Fault × Proc) Proc :=
  match p.read v with
  | .error e => .error e
  | .ok state =>
    match detachFromJvm jni state.env p with
    | .error e => .error e
    | .ok p => freeStringsAndState v p

/-- The function `hdfsThreadDestructor` as its caller sees it: the state in which it
returns, or the fault. -/
def hdfsThreadDestructor (jni : Jni) (v : Nat) (p : Proc) : Except Fault Proc :=
  match hdfsThreadDestructorRun jni v p with
  | .ok q => .ok q
  | .error e => .error e.1

/-- Source function `struct ThreadLocalState* threadLocalStorageCreate()` (lines 65-77). Only the two
exception strings are assigned; `env` keeps what `malloc` left in the block. -/
def threadLocalStorageCreate (m : MallocOutcome) (p : Proc) : Nat × Proc :=
  let p := p.emit (.malloc m.addr)
  if m.addr = 0 then
    (0, p.emit (.fprintf .createOutOfMemory 0))
  else
    let state : ThreadLocalState :=
      { m.junk with lastExceptionStackTrace := 0, lastExceptionRootCause := 0 }
    (m.addr, { p with heap := upd p.heap m.addr (some (.state state)) })

/-- Result of `threadLocalStorageGet`: the return code and the content of the caller's
`*state` cell after the call. -/
structure GetResult where
  ret : Int
  out : Nat
deriving DecidableEq, Repr

/-- Source function `int threadLocalStorageGet(struct ThreadLocalState **state)` (lines
79-94), called by thread `tid`; `out` is the content of `*state` before the call. -/
def threadLocalStorageGet (kc : KeyCreateOutcome) (tid : Nat) (out : Nat) (p : Proc) :
    GetResult × Proc :=
  if p.gTlsKeyInitialized = 0 then
    let r := pthread_key_create kc p.gTlsKey p
    let ret := r.1
    let p := { r.2.2 with gTlsKey := r.2.1 }
    if ret ≠ 0 then
      (⟨ret, out⟩, p.emit (.fprintf .keyCreateFailed ret))
    else
      let p := { p with gTlsKeyInitialized := 1 }
      (⟨ret, pthread_getspecific p.gTlsKey tid p⟩, p)
  else
    (⟨0, pthread_getspecific p.gTlsKey tid p⟩, p)

/-- Source function `int threadLocalStorageSet(struct ThreadLocalState *state)` (lines
96-106), called by thread `tid`; `nomem` is passed on to `pthread_setspecific`. -/
def threadLocalStorageSet (jni : Jni) (nomem : Int) (tid : Nat) (state : Nat) (p : Proc) :
    Except Fault (Int × Proc) :=
  let r := pthread_setspecific p.gTlsKey tid state nomem p
  let ret := r.1
  let p := r.2
  if ret ≠ 0 then
    match hdfsThreadDestructor jni state (p.emit (.fprintf .setspecificFailed ret)) with
    | .error f => .error f
    | .ok p => .ok (ret, p)
  else .ok (ret, p)

/-! ## Observing a call -/

/-- The external calls made between state `p` and a later state `q`. -/
def Proc.since (q p : Proc) : List Effect :=
  q.log.drop p.log.length

/-- The pointers passed to `free`, in order. -/
def frees : List Effect → List Nat
  | [] => []
  | .free a :: l => a :: frees l
  | _ :: l => frees l

/-- Number of `GetJavaVM` calls. -/
def resolveCalls : List Effect → Nat
  | [] => 0
  | .GetJavaVM _ :: l => resolveCalls l + 1
  | _ :: l => resolveCalls l

/-- Number of `DetachCurrentThread` calls. -/
def detachCalls : List Effect → Nat
  | [] => 0
  | .DetachCurrentThread _ :: l => detachCalls l + 1
  | _ :: l => detachCalls l

/-- Number of `pthread_key_create` calls. -/
def keyCreateAttempts : List Effect → Nat
  | [] => 0
  | .pthread_key_create _ _ :: l => keyCreateAttempts l + 1
  | _ :: l => keyCreateAttempts l

/-- Number of `pthread_key_create` calls that returned `0`. -/
def keyCreateSuccesses : List Effect → Nat
  | [] => 0
  | .pthread_key_create ret _ :: l => (if ret = 0 then 1 else 0) + keyCreateSuccesses l
  | _ :: l => keyCreateSuccesses l

/-- The state a routine has reached when it returns or faults. -/
def reached (r : Except (Fault × Proc) Proc) : Proc :=
  match r with
  | .ok q => q
  | .error e => e.2

/-- The calls `hdfsThreadDestructor` makes on the record at `v`, up to its return or up to
the fault it runs into. -/
def destructorCalls (jni : Jni) (v : Nat) (p : Proc) : List Effect :=
  (reached (hdfsThreadDestructorRun jni v p)).since p

/-! ## Sequences of calls -/

/-- One call of the interface, with the answers of the environment it may need. For `get`,
`out` is the content of the caller's `*state` cell before the call. `cleanup` is an
invocation of `hdfsThreadDestructor` itself. -/
inductive Call where
  | create (m : MallocOutcome)
  | get (tid : Nat) (kc : KeyCreateOutcome) (out : Nat)
  | set (tid : Nat) (state : Nat) (nomem : Int) (jni : Jni)
  | cleanup (v : Nat) (jni : Jni)

/-- What a call hands back to its caller. -/
inductive Ret where
  | created (v : Nat)
  | got (ret : Int) (out : Nat)
  | stored (ret : Int)
  | cleaned
deriving DecidableEq, Repr

/-- Execute one call. -/
def step (p : Proc) : Call → Except Fault (Ret × Proc)
  | .create m =>
    .ok (.created (threadLocalStorageCreate m p).1, (threadLocalStorageCreate m p).2)
  | .get tid kc out =>
    .ok (.got (threadLocalStorageGet kc tid out p).1.ret
          (threadLocalStorageGet kc tid out p).1.out, (threadLocalStorageGet kc tid out p).2)
  | .set tid state nomem jni =>
    match threadLocalStorageSet jni nomem tid state p with
    | .error f => .error f
    | .ok r => .ok (.stored r.1, r.2)
  | .cleanup v jni =>
    match hdfsThreadDestructor jni v p with
    | .error f => .error f
    | .ok q => .ok (.cleaned, q)

/-- Execute a sequence of calls one after the other; the history pairs every call with
what it returned. The run stops at the first fault. -/
def run (p : Proc) : List Call → Except Fault (List (Call × Ret) × Proc)
  | [] => .ok ([], p)
  | c :: cs =>
    match step p c with
    | .error f => .error f
    | .ok r =>
      match run r.2 cs with
      | .error f => .error f
      | .ok h => .ok ((c, r.1) :: h.1, h.2)

/-- The values returned along a run. -/
def returned (r : Except Fault (List (Call × Ret) × Proc)) : Except Fault (List Ret) :=
  match r with
  | .error f => .error f
  | .ok h => .ok (h.1.map Prod.snd)

/-! ## Expected calls, sample inputs -/

/-- The test on line 46 passes: `env` is not `NULL`, `*env` can be read and is not
`NULL`. -/
def Jni.guardPasses (jni : Jni) (env : Nat) : Bool :=
  env != 0 && (match jni.table env with
    | some table => table != 0
    | none => false)

/-- The calls of lines 45-55, in the order in which they are made. -/
def detachScript (jni : Jni) (env : Nat) : List Effect :=
  if jni.guardPasses env then
    match jni.GetJavaVM env with
    | none => [.GetJavaVM env]
    | some r =>
      if r.1 ≠ 0 then
        [.GetJavaVM env, .fprintf .getJavaVMFailed r.1, .ExceptionDescribe env]
      else
        [.GetJavaVM env, .DetachCurrentThread r.2]
  else []

/-- The calls of lines 57-62 when none of them faults, in the order in which they are
made. -/
def freeScript (v : Nat) (state : ThreadLocalState) : List Effect :=
  (if state.lastExceptionStackTrace ≠ 0
    then [.free state.lastExceptionStackTrace] else [])
  ++ (if state.lastExceptionRootCause ≠ 0
    then [.free state.lastExceptionRootCause] else [])
  ++ [.free v]

/-- The handle can be used the way lines 46-53 use it: it is `NULL`, or `*env` can be
read and is either `NULL` or a table through which `GetJavaVM` can be called. -/
def Jni.usable (jni : Jni) (env : Nat) : Prop :=
  env ≠ 0 → ∃ table, jni.table env = some table ∧
    (table ≠ 0 → ∃ r, jni.GetJavaVM env = some r)

/-- The buffers of the record at `v` can be freed the way lines 58-62 free them: each
buffer that is present is a live block other than the record, and the two are not the
same block. -/
def FreeableBuffers (v : Nat) (state : ThreadLocalState) (p : Proc) : Prop :=
  (state.lastExceptionStackTrace ≠ 0 →
    state.lastExceptionStackTrace ≠ v ∧ p.heap state.lastExceptionStackTrace ≠ none) ∧
  (state.lastExceptionRootCause ≠ 0 →
    state.lastExceptionRootCause ≠ v ∧
    state.lastExceptionRootCause ≠ state.lastExceptionStackTrace ∧
    p.heap state.lastExceptionRootCause ≠ none)

/-- The cleanup of the record at `v` can run to completion: `v` points to the live record
`state`, its handle is usable and its buffers are freeable. These are exactly the records
on which `hdfsThreadDestructor` returns (`hdfsThreadDestructor_returns_iff`). -/
def Cleanable (jni : Jni) (v : Nat) (state : ThreadLocalState) (p : Proc) : Prop :=
  v ≠ 0 ∧ p.heap v = some (.state state) ∧ jni.usable state.env ∧
  FreeableBuffers v state p

/-- The heap once the record at `v` has been cleaned up: the buffers that are present and
the record are gone. -/
def heapAfterCleanup (v : Nat) (state : ThreadLocalState) (heap : Nat → Option Block) :
    Nat → Option Block :=
  upd
    (if state.lastExceptionRootCause ≠ 0 then
      upd (if state.lastExceptionStackTrace ≠ 0
        then upd heap state.lastExceptionStackTrace none else heap)
        state.lastExceptionRootCause none
    else
      (if state.lastExceptionStackTrace ≠ 0
        then upd heap state.lastExceptionStackTrace none else heap))
    v none

/-- Between `p` and `q` only calls to `free` have been made, and nothing but the heap and
the log has changed. -/
def OnlyFrees (p q : Proc) : Prop :=
  q.gTlsKeyInitialized = p.gTlsKeyInitialized ∧ q.gTlsKey = p.gTlsKey ∧ q.keys = p.keys ∧
  q.specific = p.specific ∧
  ∃ fr, q.log = p.log ++ fr ∧ ∀ e ∈ fr, ∃ a, e = Effect.free a

/-- A record at address 1 with handle 5 and two text buffers at 3 and 4; the rest of the
process is fresh. -/
def sampleHeap : Nat → Option Block :=
  upd (upd (upd (fun _ => none) 3 (some .text)) 4 (some .text)) 1 (some (.state ⟨5, 3, 4⟩))

/-- A process whose heap is `sampleHeap`. -/
def sampleProc : Proc :=
  Proc.boot (fun _ => false) (fun _ _ => 0) sampleHeap

/-- A record at address 1 without handle, the two fields of which hold the same buffer. -/
def aliasedProc : Proc :=
  Proc.boot (fun _ => false) (fun _ _ => 0)
    (upd (upd (fun _ => none) 3 (some .text)) 1 (some (.state ⟨0, 3, 3⟩)))

/-- A runtime whose handles are well formed and in which `GetJavaVM` fails with `-1`. -/
def failingJni : Jni :=
  { table := fun _ => some 9, GetJavaVM := fun _ => some (-1, 0) }

/-- A runtime whose handles are well formed and in which `GetJavaVM` yields VM `8`. -/
def workingJni : Jni :=
  { table := fun _ => some 9, GetJavaVM := fun _ => some (0, 8) }

/-- A runtime in which every handle points to a `NULL` function table. -/
def hollowJni : Jni :=
  { table := fun _ => some 0, GetJavaVM := fun _ => some (0, 8) }

/-- A runtime in which no handle points to readable memory. -/
def unreadableJni : Jni :=
  { table := fun _ => none, GetJavaVM := fun _ => none }

/-- An allocation that succeeds at address 1 in a block that still holds the bytes
`env = 7`, `lastExceptionStackTrace = 3`, `lastExceptionRootCause = 4`. -/
def recycledBlock : MallocOutcome :=
  { addr := 1, junk := ⟨7, 3, 4⟩ }

/-- The calls `get` made from a list of (thread, answer to the key creation, content of
the caller's cell before the call). -/
def getCalls (gs : List (Nat × KeyCreateOutcome × Nat)) : List Call :=
  gs.map fun g => Call.get g.1 g.2.1 g.2.2

/-- The history of a list of `get` calls in which every key creation fails: each call
returns the code of its key creation and leaves the caller's cell as it was. -/
def failedGets (gs : List (Nat × KeyCreateOutcome × Nat)) : List (Call × Ret) :=
  gs.map fun g => (Call.get g.1 g.2.1 g.2.2, Ret.got g.2.1.ret g.2.2)

/-! ## Provisioning of the slot -/

/-- The part of the state that concerns the provisioning of the slot is the same in `q`
as in `p`, and the calls made in between contain no `pthread_key_create`. -/
def SlotUntouched (p q : Proc) : Prop :=
  q.gTlsKeyInitialized = p.gTlsKeyInitialized ∧ q.gTlsKey = p.gTlsKey ∧ q.keys = p.keys ∧
  ∃ l, q.log = p.log ++ l ∧ keyCreateAttempts l = 0

/-- Slot invariant: the flag is `0` or `1`, at most one key creation has succeeded, and
none while the flag is `0`. -/
def SlotInv (p : Proc) : Prop :=
  (p.gTlsKeyInitialized = 0 ∧ keyCreateSuccesses p.log = 0) ∨
  (p.gTlsKeyInitialized = 1 ∧ keyCreateSuccesses p.log ≤ 1)

/-- A run on a fresh process: one failed `get`, one `get` that provisions the slot with
key 3, the creation of a record at address 1 and its storing by thread 1. -/
def sampleRun : List Call :=
  [.get 1 ⟨11, 0⟩ 0, .get 1 ⟨0, 3⟩ 0, .create recycledBlock, .set 1 1 0 workingJni]

/-- The state after the first call of `sampleRun`. -/
def sampleUnprovisioned : Proc :=
  { gTlsKey := 0, gTlsKeyInitialized := 0, keys := fun _ => false, specific := fun _ _ => 0,
    heap := fun _ => none,
    log := [.pthread_key_create 11 0, .fprintf .keyCreateFailed 11] }

/-- The state after the first two calls of `sampleRun`. -/
def sampleProvisioned : Proc :=
  { gTlsKey := 3, gTlsKeyInitialized := 1, keys := upd (fun _ => false) 3 true,
    specific := upd (fun _ _ => 0) 3 (fun _ => 0), heap := fun _ => none,
    log := [.pthread_key_create 11 0, .fprintf .keyCreateFailed 11, .pthread_key_create 0 3] }

/-- The state `sampleRun` ends in. -/
def sampleEnd : Proc :=
  { gTlsKey := 3, gTlsKeyInitialized := 1,
    keys := upd (fun _ => false) 3 true,
    specific := upd (upd (fun _ _ => 0) 3 (fun _ => 0)) 3 (upd (fun _ => 0) 1 1),
    heap := upd (fun _ => none) 1 (some (.state ⟨7, 0, 0⟩)),
    log := [.pthread_key_create 11 0, .fprintf .keyCreateFailed 11, .pthread_key_create 0 3,
            .malloc 1] }

/-! ## What `get` yields -/

/-- The record passed to the most recent `set` of thread `t` in the history that reported
success (code `0`); `cur` when there is none. -/
def lastStoredFrom (t : Nat) (cur : Nat) : List (Call × Ret) → Nat
  | [] => cur
  | (.set tid state _ _, .stored ret) :: h =>
    lastStoredFrom t (if tid = t ∧ ret = 0 then state else cur) h
  | _ :: h => lastStoredFrom t cur h

/-- Some `get` of the history returned `0`: the slot has been provisioned. -/
def provisioned : List (Call × Ret) → Bool
  | [] => false
  | (_, .got ret _) :: h => if ret = 0 then true else provisioned h
  | _ :: h => provisioned h

/-- The part of the history that follows the first `get` that returned `0`; empty when
there is none. -/
def sinceProvisioned : List (Call × Ret) → List (Call × Ret)
  | [] => []
  | (_, .got ret _) :: h => if ret = 0 then h else sinceProvisioned h
  | _ :: h => sinceProvisioned h

/-- The slot is provisioned: the flag is set and `gTlsKey` is an allocated key. -/
def Provisioned (p : Proc) : Prop :=
  p.gTlsKeyInitialized ≠ 0 ∧ p.keys p.gTlsKey = true

/-- A process in which another component has already allocated key `0`, with a live
record at address 1. -/
def foreignKeyProc : Proc :=
  Proc.boot (upd (fun _ => false) 0 true) (fun _ _ => 0)
    (upd (fun _ => none) 1 (some (.state ⟨5, 3, 4⟩)))

/-! ## Threads inside `threadLocalStorageGet` at the same time -/

/-- Program points of `threadLocalStorageGet`: before the test of the flag (line 82),
before `pthread_key_create` (line 83), before the assignment to the flag (line 90),
before the lookup (line 92), after the `return`. -/
inductive GetPc where
  | testFlag
  | createKey
  | setFlag
  | lookup
  | returned
deriving DecidableEq, Repr

/-- The locals of one activation of `threadLocalStorageGet`: program point, `ret`, and
the content of the caller's `*state` cell. -/
structure GetFrame where
  pc : GetPc
  ret : Int
  out : Nat
deriving DecidableEq, Repr

/-- The process together with one activation of `threadLocalStorageGet` per thread. -/
structure Conc where
  proc : Proc
  frames : Nat → GetFrame

/-- Every thread is about to execute its first `threadLocalStorageGet`. -/
def Conc.start (p : Proc) : Conc :=
  { proc := p, frames := fun _ => ⟨.testFlag, 0, 0⟩ }

/-- Thread `tid` executes the next statement of its activation; each step makes at most
one access to the statics or one call of the thread library. `kc` is the answer the
thread library gives if the statement is the key creation. -/
def getMicroStep (kc : KeyCreateOutcome) (tid : Nat) (c : Conc) : Conc :=
  match (c.frames tid).pc with
  | .testFlag =>
    if c.proc.gTlsKeyInitialized = 0 then
      { c with frames := upd c.frames tid { c.frames tid with ret := 0, pc := .createKey } }
    else
      { c with frames := upd c.frames tid { c.frames tid with ret := 0, pc := .lookup } }
  | .createKey =>
    let r := pthread_key_create kc c.proc.gTlsKey c.proc
    let ret := r.1
    let p := { r.2.2 with gTlsKey := r.2.1 }
    if ret ≠ 0 then
      { proc := p.emit (.fprintf .keyCreateFailed ret),
        frames := upd c.frames tid { c.frames tid with ret := ret, pc := .returned } }
    else
      { proc := p,
        frames := upd c.frames tid { c.frames tid with ret := ret, pc := .setFlag } }
  | .setFlag =>
    { proc := { c.proc with gTlsKeyInitialized := 1 },
      frames := upd c.frames tid { c.frames tid with pc := .lookup } }
  | .lookup =>
    let out := pthread_getspecific c.proc.gTlsKey tid c.proc
    { c with frames := upd c.frames tid { c.frames tid with out := out, pc := .returned } }
  | .returned => c

/-- Execute a schedule: the list says which thread moves next. -/
def runSchedule (c : Conc) : List (Nat × KeyCreateOutcome) → Conc
  | [] => c
  | g :: gs => runSchedule (getMicroStep g.2 g.1 c) gs

/-- The schedule in which the threads of the list execute `threadLocalStorageGet` one
after the other, each from its first statement to its `return` (four statements at most). -/
def serial : List (Nat × KeyCreateOutcome) → List (Nat × KeyCreateOutcome)
  | [] => []
  | g :: gs => [g, g, g, g] ++ serial gs

/-- Two threads enter `threadLocalStorageGet` on a fresh process and alternate. -/
def racingSchedule : List (Nat × KeyCreateOutcome) :=
  [(1, ⟨0, 1⟩), (2, ⟨0, 2⟩), (1, ⟨0, 1⟩), (2, ⟨0, 2⟩),
   (1, ⟨0, 1⟩), (2, ⟨0, 2⟩), (1, ⟨0, 1⟩), (2, ⟨0, 2⟩)]

/-! # Properties -/

/-! ## Basic facts about the observers -/

theorem frees_append (l m : List Effect) : frees (l ++ m) = frees l ++ frees m := by
  induction l with
  | nil => rfl
  | cons e l ih => cases e <;> simp [frees, ih]

theorem resolveCalls_append (l m : List Effect) :
    resolveCalls (l ++ m) = resolveCalls l + resolveCalls m := by
  induction l with
  | nil => simp [resolveCalls]
  | cons e l ih =>
    cases e <;> simp [resolveCalls, ih]
    omega

theorem detachCalls_append (l m : List Effect) :
    detachCalls (l ++ m) = detachCalls l + detachCalls m := by
  induction l with
  | nil => simp [detachCalls]
  | cons e l ih =>
    cases e <;> simp [detachCalls, ih]
    omega

theorem keyCreateAttempts_append (l m : List Effect) :
    keyCreateAttempts (l ++ m) = keyCreateAttempts l + keyCreateAttempts m := by
  induction l with
  | nil => simp [keyCreateAttempts]
  | cons e l ih =>
    cases e <;> simp [keyCreateAttempts, ih]
    omega

theorem keyCreateSuccesses_append (l m : List Effect) :
    keyCreateSuccesses (l ++ m) = keyCreateSuccesses l + keyCreateSuccesses m := by
  induction l with
  | nil => simp [keyCreateSuccesses]
  | cons e l ih =>
    cases e <;> simp [keyCreateSuccesses, ih]
    omega

theorem since_of_log {p q : Proc} {l : List Effect} (h : q.log = p.log ++ l) :
    q.since p = l := by
  simp [Proc.since, h]

theorem resolveCalls_of_frees (fr : List Effect) (h : ∀ e ∈ fr, ∃ a, e = Effect.free a) :
    resolveCalls fr = 0 := by
  induction fr with
  | nil => rfl
  | cons e l ih =>
    obtain ⟨a, rfl⟩ := h e (List.mem_cons_self _ _)
    exact ih fun x hx => h x (List.mem_cons_of_mem _ hx)

theorem detachCalls_of_frees (fr : List Effect) (h : ∀ e ∈ fr, ∃ a, e = Effect.free a) :
    detachCalls fr = 0 := by
  induction fr with
  | nil => rfl
  | cons e l ih =>
    obtain ⟨a, rfl⟩ := h e (List.mem_cons_self _ _)
    exact ih fun x hx => h x (List.mem_cons_of_mem _ hx)

theorem keyCreateAttempts_of_frees (fr : List Effect) (h : ∀ e ∈ fr, ∃ a, e = Effect.free a) :
    keyCreateAttempts fr = 0 := by
  induction fr with
  | nil => rfl
  | cons e l ih =>
    obtain ⟨a, rfl⟩ := h e (List.mem_cons_self _ _)
    exact ih fun x hx => h x (List.mem_cons_of_mem _ hx)

/-! ## The cleanup routine -/

theorem OnlyFrees.refl (p : Proc) : OnlyFrees p p :=
  ⟨rfl, rfl, rfl, rfl, [], by simp, by simp⟩

theorem OnlyFrees.trans {p q r : Proc} (h1 : OnlyFrees p q) (h2 : OnlyFrees q r) :
    OnlyFrees p r := by
  obtain ⟨a1, b1, c1, d1, l1, e1, f1⟩ := h1
  obtain ⟨a2, b2, c2, d2, l2, e2, f2⟩ := h2
  refine ⟨a2.trans a1, b2.trans b1, c2.trans c1, d2.trans d1, l1 ++ l2, ?_, ?_⟩
  · rw [e2, e1, List.append_assoc]
  · intro e he
    rcases List.mem_append.1 he with h | h
    · exact f1 e h
    · exact f2 e h

/-- A read that faults leaves the state as it was. -/
theorem Proc.read_error (p : Proc) (v : Nat) (e : Fault × Proc) (h : p.read v = .error e) :
    e.2 = p := by
  unfold Proc.read at h
  cases hd : p.deref v with
  | error f =>
    simp only [hd, Except.error.injEq] at h
    rw [← h]
  | ok s => simp [hd] at h

/-- A read that succeeds finds a live record. -/
theorem Proc.read_ok (p : Proc) (v : Nat) (state : ThreadLocalState)
    (h : p.read v = .ok state) : v ≠ 0 ∧ p.heap v = some (.state state) := by
  unfold Proc.read Proc.deref at h
  by_cases hv : v = 0
  · simp [hv] at h
  · refine ⟨hv, ?_⟩
    cases hh : p.heap v with
    | none => simp [hv, hh] at h
    | some b =>
      cases b with
      | text => simp [hv, hh] at h
      | state s =>
        simp only [hv, hh, if_false, Except.ok.injEq] at h
        rw [h]

theorem Proc.read_live (p : Proc) (v : Nat) (state : ThreadLocalState) (hv : v ≠ 0)
    (hl : p.heap v = some (.state state)) : p.read v = .ok state := by
  simp [Proc.read, Proc.deref, hv, hl]

/-- Whether it returns or faults, `free` makes its call and nothing else. -/
theorem cfree_onlyFrees (a : Nat) (p : Proc) : OnlyFrees p (reached (cfree a p)) := by
  unfold cfree
  by_cases ha : a = 0
  · simp only [ha, if_true, reached]
    exact ⟨rfl, rfl, rfl, rfl, [.free 0], rfl, by simp⟩
  · simp only [ha, if_false]
    cases hh : (p.emit (.free a)).heap a with
    | none => exact ⟨rfl, rfl, rfl, rfl, [.free a], rfl, by simp⟩
    | some b => exact ⟨rfl, rfl, rfl, rfl, [.free a], rfl, by simp⟩

/-- The call `free(a)` on a live block. -/
theorem cfree_live (a : Nat) (p : Proc) (ha : a ≠ 0) (hl : p.heap a ≠ none) :
    cfree a p = .ok { p with heap := upd p.heap a none, log := p.log ++ [.free a] } := by
  unfold cfree
  cases hh : p.heap a with
  | none => exact absurd hh hl
  | some b => simp [ha, Proc.emit, hh]

/-- Lines 45-55, whether they complete or fault: the calls of `detachScript` are made and
nothing but the log changes. -/
theorem detachFromJvm_reached (jni : Jni) (env : Nat) (p : Proc) :
    reached (detachFromJvm jni env p) = { p with log := p.log ++ detachScript jni env } := by
  unfold detachFromJvm detachScript Jni.guardPasses
  by_cases he : env = 0
  · simp [he, reached]
  · cases ht : jni.table env with
    | none => simp [he, ht, reached]
    | some table =>
      by_cases h0 : table = 0
      · simp [he, ht, h0, reached]
      · cases hg : jni.GetJavaVM env with
        | none => simp [he, ht, h0, hg, reached, Proc.emit]
        | some r =>
          by_cases hr : r.1 = 0
          · simp [he, ht, h0, hg, hr, reached, Proc.emit]
          · simp [he, ht, h0, hg, hr, reached, Proc.emit]

/-- Lines 45-55 complete on a usable handle. -/
theorem detachFromJvm_usable (jni : Jni) (env : Nat) (p : Proc) (hu : jni.usable env) :
    detachFromJvm jni env p = .ok { p with log := p.log ++ detachScript jni env } := by
  have hr := detachFromJvm_reached jni env p
  have hok : ∃ q, detachFromJvm jni env p = .ok q := by
    unfold detachFromJvm
    by_cases he : env = 0
    · simp [he]
    · obtain ⟨table, ht, hg⟩ := hu he
      by_cases h0 : table = 0
      · simp [he, ht, h0]
      · obtain ⟨r, hr⟩ := hg h0
        by_cases hc : r.1 = 0
        · simp [he, ht, h0, hr, hc]
        · simp [he, ht, h0, hr, hc]
  obtain ⟨q, hq⟩ := hok
  rw [hq] at hr ⊢
  simp only [reached] at hr
  rw [hr]

theorem detachScript_no_key_create (jni : Jni) (env : Nat) :
    keyCreateAttempts (detachScript jni env) = 0 := by
  unfold detachScript
  split
  · split
    · rfl
    · split <;> rfl
  · rfl

/-- Lines 57-62, whether they complete or fault: only calls to `free` are made. -/
theorem freeStringsAndState_onlyFrees (v : Nat) (p : Proc) :
    OnlyFrees p (reached (freeStringsAndState v p)) := by
  unfold freeStringsAndState
  cases h1 : p.read v with
  | error e =>
    simp only [reached]
    rw [Proc.read_error p v e h1]
    exact OnlyFrees.refl p
  | ok state =>
    simp only
    have hstep1 : OnlyFrees p (reached (if state.lastExceptionStackTrace ≠ 0
        then cfree state.lastExceptionStackTrace p else .ok p)) := by
      split
      · exact cfree_onlyFrees _ p
      · exact OnlyFrees.refl p
    cases h2 : (if state.lastExceptionStackTrace ≠ 0
        then cfree state.lastExceptionStackTrace p else .ok p) with
    | error e =>
      rw [h2] at hstep1
      exact hstep1
    | ok p2 =>
      rw [h2] at hstep1
      simp only [reached] at hstep1
      simp only
      cases h3 : p2.read v with
      | error e =>
        simp only [reached]
        rw [Proc.read_error p2 v e h3]
        exact hstep1
      | ok state2 =>
        simp only
        have hstep2 : OnlyFrees p2 (reached (if state2.lastExceptionRootCause ≠ 0
            then cfree state2.lastExceptionRootCause p2 else .ok p2)) := by
          split
          · exact cfree_onlyFrees _ p2
          · exact OnlyFrees.refl p2
        cases h4 : (if state2.lastExceptionRootCause ≠ 0
            then cfree state2.lastExceptionRootCause p2 else .ok p2) with
        | error e =>
          rw [h4] at hstep2
          exact hstep1.trans hstep2
        | ok p3 =>
          rw [h4] at hstep2
          simp only [reached] at hstep2
          simp only
          exact (hstep1.trans hstep2).trans (cfree_onlyFrees v p3)

/-- Lines 57-62 complete when the record is live and its buffers are freeable. -/
theorem freeStringsAndState_freeable (v : Nat) (state : ThreadLocalState) (p : Proc)
    (hv : v ≠ 0) (hl : p.heap v = some (.state state)) (hb : FreeableBuffers v state p) :
    freeStringsAndState v p =
      .ok { p with heap := heapAfterCleanup v state p.heap,
                   log := p.log ++ freeScript v state } := by
  obtain ⟨hs, hr⟩ := hb
  unfold freeStringsAndState
  rw [Proc.read_live p v state hv hl]
  simp only
  by_cases h1 : state.lastExceptionStackTrace = 0
  · simp only [h1, ne_eq, not_true_eq_false, if_false]
    rw [Proc.read_live p v state hv hl]
    simp only
    by_cases h2 : state.lastExceptionRootCause = 0
    · simp only [h2, ne_eq, not_true_eq_false, if_false]
      rw [cfree_live v p hv (by rw [hl]; simp)]
      simp [heapAfterCleanup, freeScript, h1, h2]
    · obtain ⟨hrv, -, hrl⟩ := hr h2
      simp only [h2, ne_eq, not_false_eq_true, if_true]
      rw [cfree_live _ p h2 hrl]
      simp only
      rw [cfree_live v _ hv (by simp [upd, Ne.symm hrv, hl])]
      simp [heapAfterCleanup, freeScript, h1, h2]
  · obtain ⟨hsv, hsl⟩ := hs h1
    simp only [h1, ne_eq, not_false_eq_true, if_true]
    rw [cfree_live _ p h1 hsl]
    simp only
    have hl2 : (upd p.heap state.lastExceptionStackTrace none) v = some (.state state) := by
      simp [upd, Ne.symm hsv, hl]
    rw [Proc.read_live _ v state hv hl2]
    simp only
    by_cases h2 : state.lastExceptionRootCause = 0
    · simp only [h2, ne_eq, not_true_eq_false, if_false]
      rw [cfree_live v _ hv (by simp [upd, Ne.symm hsv, hl])]
      simp [heapAfterCleanup, freeScript, h1, h2]
    · obtain ⟨hrv, hrs, hrl⟩ := hr h2
      simp only [h2, ne_eq, not_false_eq_true, if_true]
      rw [cfree_live _ _ h2 (by simp [upd, hrs, hrl])]
      simp only
      rw [cfree_live v _ hv (by simp [upd, Ne.symm hrv, Ne.symm hsv, hl])]
      simp [heapAfterCleanup, freeScript, h1, h2]

/-- The destructor on a pointer that is not a live record: it faults on line 42, before
any call. -/
theorem hdfsThreadDestructorRun_not_live (jni : Jni) (v : Nat) (p : Proc) (e : Fault × Proc)
    (h : p.read v = .error e) : hdfsThreadDestructorRun jni v p = .error e ∧ e.2 = p := by
  refine ⟨?_, Proc.read_error p v e h⟩
  simp [hdfsThreadDestructorRun, h]

/-- The destructor on a live record, whether it returns or faults: the calls of lines
45-55 are followed by calls to `free` only, and nothing but the heap and the log
changes. -/
theorem hdfsThreadDestructorRun_calls (jni : Jni) (v : Nat) (p : Proc)
    (state : ThreadLocalState) (hv : v ≠ 0) (hl : p.heap v = some (.state state)) :
    (reached (hdfsThreadDestructorRun jni v p)).gTlsKeyInitialized = p.gTlsKeyInitialized ∧
    (reached (hdfsThreadDestructorRun jni v p)).gTlsKey = p.gTlsKey ∧
    (reached (hdfsThreadDestructorRun jni v p)).keys = p.keys ∧
    (reached (hdfsThreadDestructorRun jni v p)).specific = p.specific ∧
    ∃ fr, (reached (hdfsThreadDestructorRun jni v p)).log =
        p.log ++ (detachScript jni state.env ++ fr) ∧
      ∀ e ∈ fr, ∃ a, e = Effect.free a := by
  unfold hdfsThreadDestructorRun
  rw [Proc.read_live p v state hv hl]
  simp only
  have hd := detachFromJvm_reached jni state.env p
  cases h1 : detachFromJvm jni state.env p with
  | error e =>
    rw [h1] at hd
    simp only [reached] at hd ⊢
    rw [hd]
    exact ⟨rfl, rfl, rfl, rfl, [], by simp, by simp⟩
  | ok p1 =>
    rw [h1] at hd
    simp only [reached] at hd
    simp only
    obtain ⟨a, b, c, d, fr, hlog, hfr⟩ := freeStringsAndState_onlyFrees v p1
    subst hd
    exact ⟨a, b, c, d, fr, by rw [hlog, List.append_assoc], hfr⟩

/-- The destructor on a record that is cleanable: it returns, having made the calls of
lines 45-55 and then freed the buffers that are present and the record. -/
theorem hdfsThreadDestructor_cleanable (jni : Jni) (v : Nat) (p : Proc)
    (state : ThreadLocalState) (hc : Cleanable jni v state p) :
    hdfsThreadDestructor jni v p =
      .ok { p with heap := heapAfterCleanup v state p.heap,
                   log := p.log ++ (detachScript jni state.env ++ freeScript v state) } := by
  obtain ⟨hv, hl, hu, hb⟩ := hc
  unfold hdfsThreadDestructor hdfsThreadDestructorRun
  rw [Proc.read_live p v state hv hl]
  simp only
  rw [detachFromJvm_usable jni state.env p hu]
  simp only
  rw [freeStringsAndState_freeable v state
    { p with log := p.log ++ detachScript jni state.env } hv hl hb]
  simp

/-- When the destructor returns, it returns in the state its body has reached. -/
theorem hdfsThreadDestructor_ok (jni : Jni) (v : Nat) (p q : Proc)
    (h : hdfsThreadDestructor jni v p = .ok q) :
    reached (hdfsThreadDestructorRun jni v p) = q ∧
    v ≠ 0 ∧ ∃ state, p.heap v = some (.state state) := by
  unfold hdfsThreadDestructor at h
  cases hr : hdfsThreadDestructorRun jni v p with
  | error e => simp [hr] at h
  | ok q1 =>
    simp only [hr, Except.ok.injEq] at h
    refine ⟨by simp [reached, h], ?_⟩
    cases hread : p.read v with
    | error e =>
      rw [(hdfsThreadDestructorRun_not_live jni v p e hread).1] at hr
      simp at hr
    | ok state =>
      obtain ⟨hv, hl⟩ := Proc.read_ok p v state hread
      exact ⟨hv, state, hl⟩

/-- The call `free(a)` on something that is not a live block. -/
theorem cfree_dead (a : Nat) (p : Proc) (ha : a ≠ 0) (hl : p.heap a = none) :
    cfree a p = .error (.badFree, p.emit (.free a)) := by
  unfold cfree
  simp [ha, Proc.emit, hl]

/-- A read through a non-null pointer that does not point to a live block. -/
theorem Proc.read_dead (p : Proc) (v : Nat) (hv : v ≠ 0) (hl : p.heap v = none) :
    p.read v = .error (.danglingDeref, p) := by
  unfold Proc.read Proc.deref
  simp [hv, hl]

/-- Lines 45-55 complete only on a usable handle. -/
theorem detachFromJvm_ok_usable (jni : Jni) (env : Nat) (p q : Proc)
    (h : detachFromJvm jni env p = .ok q) : jni.usable env := by
  intro he
  unfold detachFromJvm at h
  cases ht : jni.table env with
  | none => simp [he, ht] at h
  | some table =>
    refine ⟨table, rfl, fun h0 => ?_⟩
    cases hg : jni.GetJavaVM env with
    | none => simp [he, ht, h0, hg] at h
    | some r => exact ⟨r, rfl⟩

/-- Lines 57-62 complete on a live record only when its buffers are freeable. -/
theorem freeStringsAndState_ok_freeable (v : Nat) (state : ThreadLocalState) (p q : Proc)
    (hv : v ≠ 0) (hl : p.heap v = some (.state state))
    (h : freeStringsAndState v p = .ok q) : FreeableBuffers v state p := by
  unfold freeStringsAndState at h
  rw [Proc.read_live p v state hv hl] at h
  simp only at h
  by_cases h1 : state.lastExceptionStackTrace = 0
  · simp only [h1, ne_eq, not_true_eq_false, if_false] at h
    rw [Proc.read_live p v state hv hl] at h
    simp only at h
    refine ⟨fun hne => absurd h1 hne, fun h2 => ?_⟩
    simp only [h2, ne_eq, not_false_eq_true, if_true] at h
    by_cases hrl : p.heap state.lastExceptionRootCause = none
    · rw [cfree_dead _ p h2 hrl] at h
      simp at h
    · rw [cfree_live _ p h2 hrl] at h
      simp only at h
      refine ⟨fun hrv => ?_, by rw [h1]; exact h2, hrl⟩
      rw [cfree_dead v _ hv] at h
      · simp at h
      · simp [upd, hrv]
  · simp only [h1, ne_eq, not_false_eq_true, if_true] at h
    by_cases hsl : p.heap state.lastExceptionStackTrace = none
    · rw [cfree_dead _ p h1 hsl] at h
      simp at h
    · rw [cfree_live _ p h1 hsl] at h
      simp only at h
      by_cases hsv : state.lastExceptionStackTrace = v
      · rw [Proc.read_dead _ v hv] at h
        · simp at h
        · simp [upd, hsv]
      · have hl2 : (upd p.heap state.lastExceptionStackTrace none) v =
            some (.state state) := by
          simp [upd, Ne.symm hsv, hl]
        rw [Proc.read_live _ v state hv hl2] at h
        simp only at h
        refine ⟨fun _ => ⟨hsv, hsl⟩, fun h2 => ?_⟩
        simp only [h2, ne_eq, not_false_eq_true, if_true] at h
        by_cases hrl : (upd p.heap state.lastExceptionStackTrace none)
            state.lastExceptionRootCause = none
        · rw [cfree_dead state.lastExceptionRootCause _ h2 hrl] at h
          simp at h
        · have hrs : state.lastExceptionRootCause ≠ state.lastExceptionStackTrace := by
            intro e
            apply hrl
            simp [upd, e]
          have hrl2 : p.heap state.lastExceptionRootCause ≠ none := by
            simpa [upd, hrs] using hrl
          rw [cfree_live state.lastExceptionRootCause _ h2 hrl] at h
          simp only at h
          refine ⟨fun hrv => ?_, hrs, hrl2⟩
          rw [cfree_dead v _ hv] at h
          · simp at h
          · simp [upd, hrv]

/-- The destructor returns exactly on the records that are cleanable. -/
theorem hdfsThreadDestructor_returns_iff (jni : Jni) (v : Nat) (p : Proc) :
    (∃ q, hdfsThreadDestructor jni v p = .ok q) ↔ ∃ state, Cleanable jni v state p := by
  constructor
  · rintro ⟨q, hq⟩
    obtain ⟨-, hv, state, hl⟩ := hdfsThreadDestructor_ok jni v p q hq
    refine ⟨state, hv, hl, ?_⟩
    unfold hdfsThreadDestructor hdfsThreadDestructorRun at hq
    rw [Proc.read_live p v state hv hl] at hq
    simp only at hq
    cases hd : detachFromJvm jni state.env p with
    | error e => simp [hd] at hq
    | ok p1 =>
      have hu := detachFromJvm_ok_usable jni state.env p p1 hd
      refine ⟨hu, ?_⟩
      rw [detachFromJvm_usable jni state.env p hu] at hq
      simp only at hq
      cases hf : freeStringsAndState v
          { p with log := p.log ++ detachScript jni state.env } with
      | error e => simp [hf] at hq
      | ok q1 =>
        exact freeStringsAndState_ok_freeable v state
          { p with log := p.log ++ detachScript jni state.env } q1 hv hl hf
  · rintro ⟨state, hc⟩
    exact ⟨_, hdfsThreadDestructor_cleanable jni v p state hc⟩

theorem frees_detachScript (jni : Jni) (env : Nat) : frees (detachScript jni env) = [] := by
  unfold detachScript
  split
  · split
    · rfl
    · split <;> rfl
  · rfl

theorem frees_freeScript (v : Nat) (state : ThreadLocalState) :
    frees (freeScript v state) =
      (if state.lastExceptionStackTrace ≠ 0 then [state.lastExceptionStackTrace] else [])
      ++ (if state.lastExceptionRootCause ≠ 0 then [state.lastExceptionRootCause] else [])
      ++ [v] := by
  simp only [freeScript, frees_append]
  split_ifs <;> simp [frees]

theorem guardPasses_iff (jni : Jni) (env : Nat) :
    jni.guardPasses env = true ↔
      (env ≠ 0 ∧ jni.table env ≠ none ∧ jni.table env ≠ some 0) := by
  unfold Jni.guardPasses
  cases ht : jni.table env with
  | none => simp
  | some table => simp

theorem resolveCalls_detachScript (jni : Jni) (env : Nat) :
    resolveCalls (detachScript jni env) =
      (if env ≠ 0 ∧ jni.table env ≠ none ∧ jni.table env ≠ some 0 then 1 else 0) := by
  unfold detachScript
  by_cases hg : jni.guardPasses env = true
  · have h := (guardPasses_iff jni env).1 hg
    rw [if_pos hg, if_pos h]
    cases hr : jni.GetJavaVM env with
    | none => rfl
    | some r =>
      simp only
      split <;> rfl
  · have h : ¬ (env ≠ 0 ∧ jni.table env ≠ none ∧ jni.table env ≠ some 0) :=
      fun h => hg ((guardPasses_iff jni env).2 h)
    rw [if_neg hg, if_neg h]
    rfl

theorem detachCalls_detachScript (jni : Jni) (env : Nat) :
    detachCalls (detachScript jni env) =
      (if (env ≠ 0 ∧ jni.table env ≠ none ∧ jni.table env ≠ some 0) ∧
          (jni.GetJavaVM env).map Prod.fst = some 0 then 1 else 0) := by
  unfold detachScript
  by_cases hg : jni.guardPasses env = true
  · have h := (guardPasses_iff jni env).1 hg
    rw [if_pos hg]
    cases hr : jni.GetJavaVM env with
    | none => simp [detachCalls]
    | some r =>
      by_cases hc : r.1 = 0
      · simp [hc, h, detachCalls]
      · simp [hc, detachCalls]
  · have h : ¬ (env ≠ 0 ∧ jni.table env ≠ none ∧ jni.table env ≠ some 0) :=
      fun h => hg ((guardPasses_iff jni env).2 h)
    rw [if_neg hg, if_neg (fun x => h x.1)]
    rfl

/-- Counterexample to C4 as stated. The record at address 1 of `sampleProc` has the
non-null handle 5; when the handle does not point to readable memory the destructor stops
on line 46 before any `free`: neither the buffers nor the record are freed. The record at
address 1 of `aliasedProc` holds the same buffer in both fields; the destructor frees it
on line 58 and again on line 59. -/
theorem cleanup_stops_or_frees_twice :
    (hdfsThreadDestructor unreadableJni 1 sampleProc = .error .wildHandle ∧
      destructorCalls unreadableJni 1 sampleProc = []) ∧
    (aliasedProc.heap 1 = some (.state ⟨0, 3, 3⟩) ∧
      hdfsThreadDestructor workingJni 1 aliasedProc = .error .badFree ∧
      frees (destructorCalls workingJni 1 aliasedProc) = [3, 3]) := by
  refine ⟨⟨rfl, rfl⟩, rfl, rfl, rfl⟩

/-- C4 (amended): on every live record whose cleanup can run to completion (the handle is
`NULL` or usable, each buffer that is present is a live block other than the record, the
two buffers are not the same block), whatever `GetJavaVM` answers, `hdfsThreadDestructor`
returns and the calls to `free` it has made are, in order: the stack-trace buffer if
present, the root-cause buffer if present, the record. Nothing else is freed, `free(NULL)`
is not called, nothing is freed twice, the record is freed exactly once, and the blocks
freed are no longer live. -/
theorem hdfsThreadDestructor_frees (jni : Jni) (v : Nat) (p : Proc) (state : ThreadLocalState)
    (hc : Cleanable jni v state p) :
    ∃ q, hdfsThreadDestructor jni v p = .ok q ∧
      frees (q.since p) =
        (if state.lastExceptionStackTrace ≠ 0 then [state.lastExceptionStackTrace] else [])
        ++ (if state.lastExceptionRootCause ≠ 0 then [state.lastExceptionRootCause] else [])
        ++ [v] ∧
      0 ∉ frees (q.since p) ∧
      (frees (q.since p)).Nodup ∧
      (frees (q.since p)).count v = 1 ∧
      ∀ a ∈ frees (q.since p), q.heap a = none := by
  refine ⟨_, hdfsThreadDestructor_cleanable jni v p state hc, ?_⟩
  obtain ⟨hv, hl, -, hs, hr⟩ := hc
  have hlist : frees (Proc.since
      { p with heap := heapAfterCleanup v state p.heap,
               log := p.log ++ (detachScript jni state.env ++ freeScript v state) } p) =
      (if state.lastExceptionStackTrace ≠ 0 then [state.lastExceptionStackTrace] else [])
      ++ (if state.lastExceptionRootCause ≠ 0 then [state.lastExceptionRootCause] else [])
      ++ [v] := by
    rw [since_of_log rfl, frees_append, frees_detachScript, frees_freeScript]
    rfl
  rw [hlist]
  refine ⟨rfl, ?_, ?_, ?_, ?_⟩
  · split_ifs <;> simp <;> omega
  · by_cases h1 : state.lastExceptionStackTrace = 0
    · by_cases h2 : state.lastExceptionRootCause = 0
      · simp [h1, h2]
      · simp [h1, h2, (hr h2).1]
    · by_cases h2 : state.lastExceptionRootCause = 0
      · simp [h1, h2, (hs h1).1]
      · simp [h1, h2, (hs h1).1, (hr h2).1, Ne.symm (hr h2).2.1]
  · by_cases h1 : state.lastExceptionStackTrace = 0
    · by_cases h2 : state.lastExceptionRootCause = 0
      · simp [h1, h2]
      · simp [h1, h2, List.count_cons, (hr h2).1]
    · by_cases h2 : state.lastExceptionRootCause = 0
      · simp [h1, h2, List.count_cons, (hs h1).1]
      · simp [h1, h2, List.count_cons, (hs h1).1, (hr h2).1]
  · intro a ha
    by_cases h1 : state.lastExceptionStackTrace = 0
    · by_cases h2 : state.lastExceptionRootCause = 0
      · simp [h1, h2] at ha
        simp [ha, heapAfterCleanup, upd]
      · simp [h1, h2] at ha
        rcases ha with rfl | rfl <;> simp [heapAfterCleanup, upd, h1, h2]
    · by_cases h2 : state.lastExceptionRootCause = 0
      · simp [h1, h2] at ha
        rcases ha with rfl | rfl <;> simp [heapAfterCleanup, upd, h1, h2]
      · simp [h1, h2] at ha
        rcases ha with rfl | rfl | rfl <;> simp [heapAfterCleanup, upd, h1, h2]

/-- The record of `sampleProc` is cleanable through handles that can be used. -/
theorem sampleProc_cleanable (jni : Jni) (hu : jni.usable 5) :
    Cleanable jni 1 ⟨5, 3, 4⟩ sampleProc :=
  ⟨by decide, rfl, hu, fun _ => ⟨by decide, by simp [sampleProc, Proc.boot, sampleHeap, upd]⟩,
    fun _ => ⟨by decide, by decide, by simp [sampleProc, Proc.boot, sampleHeap, upd]⟩⟩

theorem failingJni_usable (env : Nat) : failingJni.usable env :=
  fun _ => ⟨9, rfl, fun _ => ⟨(-1, 0), rfl⟩⟩

theorem workingJni_usable (env : Nat) : workingJni.usable env :=
  fun _ => ⟨9, rfl, fun _ => ⟨(0, 8), rfl⟩⟩

/-- Witness for C4 (amended): a record with handle 5 and texts 3 and 4, resolution
failing. -/
theorem hdfsThreadDestructor_frees_witness :
    ∃ q, hdfsThreadDestructor failingJni 1 sampleProc = .ok q ∧
      frees (q.since sampleProc) =
        (if (3 : Nat) ≠ 0 then [3] else []) ++ (if (4 : Nat) ≠ 0 then [4] else []) ++ [1] ∧
      0 ∉ frees (q.since sampleProc) ∧
      (frees (q.since sampleProc)).Nodup ∧
      (frees (q.since sampleProc)).count 1 = 1 ∧
      ∀ a ∈ frees (q.since sampleProc), q.heap a = none :=
  hdfsThreadDestructor_frees failingJni 1 sampleProc ⟨5, 3, 4⟩
    (sampleProc_cleanable failingJni (failingJni_usable 5))

/-- The calls of the destructor on a live record, up to its return or its fault. -/
theorem destructorCalls_live (jni : Jni) (v : Nat) (p : Proc) (state : ThreadLocalState)
    (hv : v ≠ 0) (hl : p.heap v = some (.state state)) :
    ∃ fr, destructorCalls jni v p = detachScript jni state.env ++ fr ∧
      ∀ e ∈ fr, ∃ a, e = Effect.free a := by
  obtain ⟨-, -, -, -, fr, hlog, hfr⟩ := hdfsThreadDestructorRun_calls jni v p state hv hl
  exact ⟨fr, since_of_log hlog, hfr⟩

/-- Counterexample to C5 as stated: the record at address 1 has the non-null handle 5. When
the handle points to a `NULL` function table, the destructor makes its three calls to
`free` and never calls `GetJavaVM`; when the handle does not point to readable memory,
the destructor stops on line 46 without having called `GetJavaVM`. -/
theorem resolve_skipped_when_table_null :
    sampleProc.heap 1 = some (.state ⟨5, 3, 4⟩) ∧ (5 : Nat) ≠ 0 ∧
    destructorCalls hollowJni 1 sampleProc = [.free 3, .free 4, .free 1] ∧
    resolveCalls (destructorCalls hollowJni 1 sampleProc) = 0 ∧
    hdfsThreadDestructor unreadableJni 1 sampleProc = .error .wildHandle ∧
    resolveCalls (destructorCalls unreadableJni 1 sampleProc) = 0 := by
  refine ⟨rfl, by decide, rfl, rfl, rfl, rfl⟩

/-- C5 (amended): on every live record, `hdfsThreadDestructor` calls `GetJavaVM` exactly
once when the handle `env` is non-null and the function table `*env` it points to can be
read and is non-null, and not at all otherwise; it calls `DetachCurrentThread` exactly
once when in addition `GetJavaVM` returned `0`, and not at all otherwise (in particular
never after a failed resolution). The calls counted are those made up to the return of
the routine or up to the fault it runs into. -/
theorem hdfsThreadDestructor_resolve_detach (jni : Jni) (v : Nat) (p : Proc)
    (state : ThreadLocalState) (hv : v ≠ 0) (hl : p.heap v = some (.state state)) :
    resolveCalls (destructorCalls jni v p) =
      (if state.env ≠ 0 ∧ jni.table state.env ≠ none ∧ jni.table state.env ≠ some 0
        then 1 else 0) ∧
    detachCalls (destructorCalls jni v p) =
      (if (state.env ≠ 0 ∧ jni.table state.env ≠ none ∧ jni.table state.env ≠ some 0) ∧
          (jni.GetJavaVM state.env).map Prod.fst = some 0
        then 1 else 0) := by
  obtain ⟨fr, hcalls, hfr⟩ := destructorCalls_live jni v p state hv hl
  rw [hcalls, resolveCalls_append, detachCalls_append, resolveCalls_of_frees fr hfr,
    detachCalls_of_frees fr hfr, resolveCalls_detachScript, detachCalls_detachScript]
  exact ⟨rfl, rfl⟩

/-- Witness for C5 (amended): handle 5 with a function table, `GetJavaVM` succeeds. -/
theorem hdfsThreadDestructor_resolve_detach_witness :
    resolveCalls (destructorCalls workingJni 1 sampleProc) =
      (if (5 : Nat) ≠ 0 ∧ workingJni.table 5 ≠ none ∧ workingJni.table 5 ≠ some 0
        then 1 else 0) ∧
    detachCalls (destructorCalls workingJni 1 sampleProc) =
      (if ((5 : Nat) ≠ 0 ∧ workingJni.table 5 ≠ none ∧ workingJni.table 5 ≠ some 0) ∧
          (workingJni.GetJavaVM 5).map Prod.fst = some 0
        then 1 else 0) :=
  hdfsThreadDestructor_resolve_detach workingJni 1 sampleProc ⟨5, 3, 4⟩ (by decide) rfl

/-- Counterexample to C10 as stated: when `GetJavaVM` fails, the destructor, after
printing its diagnostic, calls `ExceptionDescribe` through the handle. -/
theorem exception_described_when_resolve_fails :
    destructorCalls failingJni 1 sampleProc =
      [.GetJavaVM 5, .fprintf .getJavaVMFailed (-1), .ExceptionDescribe 5,
       .free 3, .free 4, .free 1] := by
  rfl

/-- C10 (amended): on every live record the calls `hdfsThreadDestructor` makes are, in
this order: first the calls of lines 45-55, which are none when the handle is null,
cannot be read or points to a null table, and otherwise `GetJavaVM` through the handle,
followed when it returned `0` by `DetachCurrentThread` on the resolved VM and when it
failed by the diagnostic carrying the code and then `ExceptionDescribe` through the
handle; after these, calls to `free` only. When moreover the handle is usable and the
buffers are freeable, the routine returns and these calls to `free` are, in order, the
stack-trace buffer if present, the root-cause buffer if present and the record. -/
theorem hdfsThreadDestructor_jvm_calls (jni : Jni) (v : Nat) (p : Proc)
    (state : ThreadLocalState) (hv : v ≠ 0) (hl : p.heap v = some (.state state)) :
    ∃ fr, destructorCalls jni v p =
        (if state.env ≠ 0 ∧ jni.table state.env ≠ none ∧ jni.table state.env ≠ some 0 then
          (match jni.GetJavaVM state.env with
            | none => [.GetJavaVM state.env]
            | some r =>
              if r.1 ≠ 0 then
                [.GetJavaVM state.env, .fprintf .getJavaVMFailed r.1,
                 .ExceptionDescribe state.env]
              else
                [.GetJavaVM state.env, .DetachCurrentThread r.2])
        else []) ++ fr ∧
      (∀ e ∈ fr, ∃ a, e = Effect.free a) ∧
      (jni.usable state.env → FreeableBuffers v state p →
        (∃ q, hdfsThreadDestructor jni v p = .ok q) ∧
        fr = (if state.lastExceptionStackTrace ≠ 0
                then [.free state.lastExceptionStackTrace] else [])
             ++ (if state.lastExceptionRootCause ≠ 0
                then [.free state.lastExceptionRootCause] else [])
             ++ [.free v]) := by
  have hscript : detachScript jni state.env =
      (if state.env ≠ 0 ∧ jni.table state.env ≠ none ∧ jni.table state.env ≠ some 0 then
        (match jni.GetJavaVM state.env with
          | none => [.GetJavaVM state.env]
          | some r =>
            if r.1 ≠ 0 then
              [.GetJavaVM state.env, .fprintf .getJavaVMFailed r.1,
               .ExceptionDescribe state.env]
            else
              [.GetJavaVM state.env, .DetachCurrentThread r.2])
      else []) := by
    unfold detachScript
    by_cases hg : jni.guardPasses state.env = true
    · rw [if_pos hg, if_pos ((guardPasses_iff jni state.env).1 hg)]
    · rw [if_neg hg, if_neg (fun h => hg ((guardPasses_iff jni state.env).2 h))]
  obtain ⟨fr, hcalls, hfr⟩ := destructorCalls_live jni v p state hv hl
  refine ⟨fr, by rw [hcalls, hscript], hfr, fun hu hb => ?_⟩
  have hok := hdfsThreadDestructor_cleanable jni v p state ⟨hv, hl, hu, hb⟩
  refine ⟨⟨_, hok⟩, ?_⟩
  have hrun : hdfsThreadDestructorRun jni v p =
      .ok { p with heap := heapAfterCleanup v state p.heap,
                   log := p.log ++ (detachScript jni state.env ++ freeScript v state) } := by
    unfold hdfsThreadDestructor at hok
    cases hr : hdfsThreadDestructorRun jni v p with
    | error e => simp [hr] at hok
    | ok q1 =>
      simp only [hr, Except.ok.injEq] at hok
      rw [hok]
  have hcalls2 : destructorCalls jni v p = detachScript jni state.env ++ freeScript v state := by
    unfold destructorCalls
    rw [hrun]
    exact since_of_log rfl
  rw [hcalls2] at hcalls
  exact (List.append_cancel_left hcalls).symm

/-- Witness for C10 (amended): handle 5 with a function table, `GetJavaVM` fails with
`-1`; the routine returns and its calls are `GetJavaVM`, the diagnostic,
`ExceptionDescribe`, then the three calls to `free`. -/
theorem hdfsThreadDestructor_jvm_calls_witness :
    (∃ q, hdfsThreadDestructor failingJni 1 sampleProc = .ok q) ∧
    destructorCalls failingJni 1 sampleProc =
      [.GetJavaVM 5, .fprintf .getJavaVMFailed (-1), .ExceptionDescribe 5,
       .free 3, .free 4, .free 1] := by
  obtain ⟨fr, hcalls, -, hdone⟩ :=
    hdfsThreadDestructor_jvm_calls failingJni 1 sampleProc ⟨5, 3, 4⟩ (by decide) rfl
  obtain ⟨hq, hfr⟩ := hdone (failingJni_usable 5)
    (sampleProc_cleanable failingJni (failingJni_usable 5)).2.2.2
  refine ⟨hq, ?_⟩
  rw [hcalls, hfr]
  rfl

/-! ## Creating a record -/

/-- What `threadLocalStorageCreate` returns: `NULL` when `malloc` fails, and otherwise the
address of a live record whose two exception strings are `NULL` and whose `env` is what
the block contained. -/
theorem threadLocalStorageCreate_spec (m : MallocOutcome) (p : Proc) :
    (threadLocalStorageCreate m p).1 = m.addr ∧
    (m.addr = 0 → (threadLocalStorageCreate m p).2.heap = p.heap) ∧
    (m.addr ≠ 0 → (threadLocalStorageCreate m p).2.heap m.addr =
      some (.state ⟨m.junk.env, 0, 0⟩)) := by
  unfold threadLocalStorageCreate
  by_cases h : m.addr = 0
  · simp [h, Proc.emit]
  · simp [h, Proc.emit, upd]

/-- C2, the code at the failing input: `malloc` succeeds with a block whose `env` bytes are
`7`; the record returned has both exception strings `NULL` but its `env` is `7`, not
`NULL`. -/
theorem threadLocalStorageCreate_env_uninitialised :
    (threadLocalStorageCreate recycledBlock Proc.fresh).1 = 1 ∧
    (threadLocalStorageCreate recycledBlock Proc.fresh).2.heap 1 = some (.state ⟨7, 0, 0⟩) ∧
    (7 : Nat) ≠ 0 := by
  refine ⟨rfl, rfl, by decide⟩

/-! ## Storing a record -/

/-- A failed store leaves the tables as they were. -/
theorem pthread_setspecific_failed (key tid value : Nat) (nomem : Int) (p : Proc)
    (h : (pthread_setspecific key tid value nomem p).1 ≠ 0) :
    (pthread_setspecific key tid value nomem p).2 = p := by
  unfold pthread_setspecific at h ⊢
  split_ifs at h ⊢ <;> simp_all

/-- A store changes neither the statics, nor the key table, nor the heap, nor the log. -/
theorem pthread_setspecific_frame (key tid value : Nat) (nomem : Int) (p : Proc) :
    (pthread_setspecific key tid value nomem p).2.gTlsKey = p.gTlsKey ∧
    (pthread_setspecific key tid value nomem p).2.gTlsKeyInitialized = p.gTlsKeyInitialized ∧
    (pthread_setspecific key tid value nomem p).2.keys = p.keys ∧
    (pthread_setspecific key tid value nomem p).2.heap = p.heap ∧
    (pthread_setspecific key tid value nomem p).2.log = p.log := by
  unfold pthread_setspecific
  split_ifs <;> simp

/-- Counterexample to C3 as stated: in `sampleProc` and in `aliasedProc` the slot is not
provisioned and the store of the record at address 1 fails with `EINVAL` (22). With a
handle that does not point to readable memory the cleanup stops on line 46, with a record
that holds the same buffer twice it stops in the second `free`: in both cases
`threadLocalStorageSet` does not return the code of the store. -/
theorem set_stops_in_cleanup :
    (pthread_setspecific sampleProc.gTlsKey 2 1 0 sampleProc).1 = 22 ∧
    threadLocalStorageSet unreadableJni 0 2 1 sampleProc = .error .wildHandle ∧
    (pthread_setspecific aliasedProc.gTlsKey 2 1 0 aliasedProc).1 = 22 ∧
    threadLocalStorageSet workingJni 0 2 1 aliasedProc = .error .badFree := by
  refine ⟨rfl, rfl, rfl, rfl⟩

/-- C3 (amended): for every record `r` whose cleanup, should the store fail, can run to
completion (`r` is a live record, its handle is `NULL` or usable, its buffers are
freeable), `threadLocalStorageSet(r)` returns exactly the code of `pthread_setspecific`.
When that code is `0` the call does nothing beyond the store: nothing is added to the log
(nothing is freed, no cleanup runs on `r` or on the value stored before) and the heap is
untouched. When the code is not `0` the call is the diagnostic followed by one run of
`hdfsThreadDestructor` on `r`. Hence `r` is freed exactly once if the store failed and
not at all if it succeeded. -/
theorem threadLocalStorageSet_cleanup (jni : Jni) (nomem : Int) (tid r : Nat) (p : Proc)
    (state : ThreadLocalState)
    (hclean : (pthread_setspecific p.gTlsKey tid r nomem p).1 ≠ 0 → Cleanable jni r state p) :
    ∃ q, threadLocalStorageSet jni nomem tid r p =
        .ok ((pthread_setspecific p.gTlsKey tid r nomem p).1, q) ∧
      ((pthread_setspecific p.gTlsKey tid r nomem p).1 = 0 →
        q = (pthread_setspecific p.gTlsKey tid r nomem p).2 ∧ q.since p = [] ∧
        q.heap = p.heap) ∧
      ((pthread_setspecific p.gTlsKey tid r nomem p).1 ≠ 0 →
        hdfsThreadDestructor jni r
          (p.emit (.fprintf .setspecificFailed (pthread_setspecific p.gTlsKey tid r nomem p).1))
          = .ok q ∧
        q.since p =
          .fprintf .setspecificFailed (pthread_setspecific p.gTlsKey tid r nomem p).1 ::
            (destructorCalls jni r p)) ∧
      (frees (q.since p)).count r =
        (if (pthread_setspecific p.gTlsKey tid r nomem p).1 ≠ 0 then 1 else 0) := by
  obtain ⟨-, -, -, hheap, hlog⟩ := pthread_setspecific_frame p.gTlsKey tid r nomem p
  by_cases hc : (pthread_setspecific p.gTlsKey tid r nomem p).1 = 0
  · refine ⟨(pthread_setspecific p.gTlsKey tid r nomem p).2, ?_, ?_, ?_, ?_⟩
    · simp [threadLocalStorageSet, hc]
    · intro _
      exact ⟨rfl, by simp [Proc.since, hlog], hheap⟩
    · intro h
      exact absurd hc h
    · simp [Proc.since, hlog, hc, frees]
  · have hp := pthread_setspecific_failed p.gTlsKey tid r nomem p hc
    obtain ⟨hr0, hl, hu, hb⟩ := hclean hc
    have hcl : Cleanable jni r state (p.emit (.fprintf .setspecificFailed
        (pthread_setspecific p.gTlsKey tid r nomem p).1)) := ⟨hr0, hl, hu, hb⟩
    have hq0 := hdfsThreadDestructor_cleanable jni r p state ⟨hr0, hl, hu, hb⟩
    have hcalls : destructorCalls jni r p =
        detachScript jni state.env ++ freeScript r state := by
      unfold hdfsThreadDestructor at hq0
      unfold destructorCalls
      cases hrun : hdfsThreadDestructorRun jni r p with
      | error e => simp [hrun] at hq0
      | ok q1 =>
        simp only [hrun, Except.ok.injEq] at hq0
        simp only [reached, hq0]
        exact since_of_log rfl
    have hex : ∃ q, hdfsThreadDestructor jni r (p.emit (.fprintf .setspecificFailed
          (pthread_setspecific p.gTlsKey tid r nomem p).1)) = .ok q ∧
        q.since p =
          .fprintf .setspecificFailed (pthread_setspecific p.gTlsKey tid r nomem p).1 ::
            (detachScript jni state.env ++ freeScript r state) :=
      ⟨_, hdfsThreadDestructor_cleanable jni r _ state hcl,
        since_of_log (by simp [Proc.emit])⟩
    obtain ⟨q, hq, hs⟩ := hex
    refine ⟨q, ?_, ?_, ?_, ?_⟩
    · simp only [threadLocalStorageSet, hp, ne_eq, hc, not_false_eq_true, if_true]
      rw [hq]
    · intro h
      exact absurd h hc
    · intro _
      refine ⟨hq, ?_⟩
      rw [hcalls]
      exact hs
    · have hfr : (frees (detachScript jni state.env ++ freeScript r state)).count r = 1 := by
        rw [frees_append, frees_detachScript, frees_freeScript]
        obtain ⟨hs1, hr1⟩ := hb
        by_cases h1 : state.lastExceptionStackTrace = 0
        · by_cases h2 : state.lastExceptionRootCause = 0
          · simp [h1, h2]
          · simp [h1, h2, List.count_cons, (hr1 h2).1]
        · by_cases h2 : state.lastExceptionRootCause = 0
          · simp [h1, h2, List.count_cons, (hs1 h1).1]
          · simp [h1, h2, List.count_cons, (hs1 h1).1, (hr1 h2).1]
      rw [hs]
      simp only [frees, hc, ne_eq, not_false_eq_true, if_true]
      exact hfr

/-- Witness for C3 (amended): in `sampleProc` the key `0` is not allocated, the store fails
with `EINVAL` and the record at address 1, which is cleanable, is cleaned up. -/
theorem threadLocalStorageSet_cleanup_witness :
    ∃ q, threadLocalStorageSet workingJni 0 2 1 sampleProc =
        .ok ((pthread_setspecific sampleProc.gTlsKey 2 1 0 sampleProc).1, q) ∧
      ((pthread_setspecific sampleProc.gTlsKey 2 1 0 sampleProc).1 = 0 →
        q = (pthread_setspecific sampleProc.gTlsKey 2 1 0 sampleProc).2 ∧
        q.since sampleProc = [] ∧ q.heap = sampleProc.heap) ∧
      ((pthread_setspecific sampleProc.gTlsKey 2 1 0 sampleProc).1 ≠ 0 →
        hdfsThreadDestructor workingJni 1
          (sampleProc.emit (.fprintf .setspecificFailed
            (pthread_setspecific sampleProc.gTlsKey 2 1 0 sampleProc).1))
          = .ok q ∧
        q.since sampleProc =
          .fprintf .setspecificFailed (pthread_setspecific sampleProc.gTlsKey 2 1 0 sampleProc).1 ::
            (destructorCalls workingJni 1 sampleProc)) ∧
      (frees (q.since sampleProc)).count 1 =
        (if (pthread_setspecific sampleProc.gTlsKey 2 1 0 sampleProc).1 ≠ 0 then 1 else 0) :=
  threadLocalStorageSet_cleanup workingJni 0 2 1 sampleProc ⟨5, 3, 4⟩
    (fun _ => sampleProc_cleanable workingJni (workingJni_usable 5))

/-- C9, the code on the null record: whenever the store of `NULL` fails,
`threadLocalStorageSet(NULL)` runs `hdfsThreadDestructor(NULL)`, whose first statement
reads `state->env` through the null pointer; the call does not return a code. -/
theorem threadLocalStorageSet_null_faults (jni : Jni) (nomem : Int) (tid : Nat) (p : Proc)
    (hfail : (pthread_setspecific p.gTlsKey tid 0 nomem p).1 ≠ 0) :
    threadLocalStorageSet jni nomem tid 0 p = .error .nullDeref ∧
    hdfsThreadDestructor jni 0 p = .error .nullDeref := by
  constructor
  · simp [threadLocalStorageSet, hfail, hdfsThreadDestructor, hdfsThreadDestructorRun,
      Proc.read, Proc.deref]
  · simp [hdfsThreadDestructor, hdfsThreadDestructorRun, Proc.read, Proc.deref]

/-- Witness for C9: first call of a fresh process, the key has not been created yet, the
store of `NULL` fails with `EINVAL`. -/
theorem threadLocalStorageSet_null_faults_witness :
    (pthread_setspecific Proc.fresh.gTlsKey 1 0 0 Proc.fresh).1 ≠ 0 ∧
    threadLocalStorageSet workingJni 0 1 0 Proc.fresh = .error .nullDeref ∧
    hdfsThreadDestructor workingJni 0 Proc.fresh = .error .nullDeref :=
  ⟨by decide, threadLocalStorageSet_null_faults workingJni 0 1 Proc.fresh (by decide)⟩

/-! ## Looking up the record of the calling thread -/

/-- A `get` on an unprovisioned slot when the key creation fails. -/
theorem threadLocalStorageGet_failed (kc : KeyCreateOutcome) (tid out : Nat) (p : Proc)
    (h0 : p.gTlsKeyInitialized = 0) (hk : kc.ret ≠ 0) :
    threadLocalStorageGet kc tid out p =
      (⟨kc.ret, out⟩, { p with log := p.log ++ [.pthread_key_create kc.ret kc.key,
                                                .fprintf .keyCreateFailed kc.ret] }) := by
  simp [threadLocalStorageGet, h0, pthread_key_create, hk, Proc.emit]

/-- A `get` on an unprovisioned slot when the key creation succeeds. -/
theorem threadLocalStorageGet_created (kc : KeyCreateOutcome) (tid out : Nat) (p : Proc)
    (h0 : p.gTlsKeyInitialized = 0) (hk : kc.ret = 0) :
    threadLocalStorageGet kc tid out p =
      (⟨0, 0⟩, { p with gTlsKey := kc.key, gTlsKeyInitialized := 1,
                        keys := upd p.keys kc.key true,
                        specific := upd p.specific kc.key (fun _ => 0),
                        log := p.log ++ [.pthread_key_create 0 kc.key] }) := by
  simp [threadLocalStorageGet, h0, pthread_key_create, hk, Proc.emit, pthread_getspecific, upd]

/-- A `get` on a provisioned slot. -/
theorem threadLocalStorageGet_provisioned (kc : KeyCreateOutcome) (tid out : Nat) (p : Proc)
    (h1 : p.gTlsKeyInitialized ≠ 0) :
    threadLocalStorageGet kc tid out p = (⟨0, pthread_getspecific p.gTlsKey tid p⟩, p) := by
  simp [threadLocalStorageGet, h1]

/-- C6: while the slot is unprovisioned (`gTlsKeyInitialized = 0`), a `get` whose key
creation fails with code `e ≠ 0` returns `e`, leaves the flag at `0` and leaves the
caller's cell as it was. Consequently, in any run of `get` calls in which every key
creation fails, every call returns its non-zero code and the slot stays unprovisioned
(flag, key and key table untouched); and the first `get` whose key creation succeeds
returns `0` and sets the flag to `1`. -/
theorem threadLocalStorageGet_retry (p : Proc) (fails : List (Nat × KeyCreateOutcome × Nat))
    (kf kc : KeyCreateOutcome) (tid out : Nat)
    (h0 : p.gTlsKeyInitialized = 0) (hkf : kf.ret ≠ 0)
    (hf : ∀ g ∈ fails, g.2.1.ret ≠ 0) (hk : kc.ret = 0) :
    ((threadLocalStorageGet kf tid out p).1 = ⟨kf.ret, out⟩ ∧
      (threadLocalStorageGet kf tid out p).2.gTlsKeyInitialized = 0) ∧
    ∃ q, run p (getCalls fails) = .ok (failedGets fails, q) ∧
      q.gTlsKeyInitialized = 0 ∧ q.gTlsKey = p.gTlsKey ∧ q.keys = p.keys ∧
      q.specific = p.specific ∧
      (threadLocalStorageGet kc tid out q).1.ret = 0 ∧
      (threadLocalStorageGet kc tid out q).2.gTlsKeyInitialized = 1 := by
  constructor
  · rw [threadLocalStorageGet_failed kf tid out p h0 hkf]
    exact ⟨rfl, h0⟩
  · induction fails generalizing p with
    | nil =>
      refine ⟨p, rfl, h0, rfl, rfl, rfl, ?_⟩
      rw [threadLocalStorageGet_created kc tid out p h0 hk]
      exact ⟨rfl, rfl⟩
    | cons g gs ih =>
      have hg : g.2.1.ret ≠ 0 := hf g (List.mem_cons_self _ _)
      have hgs : ∀ g ∈ gs, g.2.1.ret ≠ 0 := fun x hx => hf x (List.mem_cons_of_mem _ hx)
      have hstep := threadLocalStorageGet_failed g.2.1 g.1 g.2.2 p h0 hg
      obtain ⟨q, hrun, hq0, hqk, hqs, hqsp, hget⟩ :=
        ih (threadLocalStorageGet g.2.1 g.1 g.2.2 p).2 (by rw [hstep]; exact h0) hgs
      refine ⟨q, ?_, hq0, ?_, ?_, ?_, hget⟩
      · simp only [getCalls, List.map_cons, run, step, failedGets]
        simp only [getCalls] at hrun
        rw [hrun]
        simp [hstep, failedGets]
      · rw [hqk, hstep]
      · rw [hqs, hstep]
      · rw [hqsp, hstep]

/-- Witness for C6: two failed attempts (codes 11 and 12) on a fresh process, then one
that succeeds. -/
theorem threadLocalStorageGet_retry_witness :
    ((threadLocalStorageGet ⟨11, 0⟩ 1 6 Proc.fresh).1 = ⟨11, 6⟩ ∧
      (threadLocalStorageGet ⟨11, 0⟩ 1 6 Proc.fresh).2.gTlsKeyInitialized = 0) ∧
    ∃ q, run Proc.fresh (getCalls [(1, ⟨11, 0⟩, 6), (2, ⟨12, 0⟩, 7)]) =
        .ok (failedGets [(1, ⟨11, 0⟩, 6), (2, ⟨12, 0⟩, 7)], q) ∧
      q.gTlsKeyInitialized = 0 ∧ q.gTlsKey = Proc.fresh.gTlsKey ∧ q.keys = Proc.fresh.keys ∧
      q.specific = Proc.fresh.specific ∧
      (threadLocalStorageGet ⟨0, 3⟩ 1 6 q).1.ret = 0 ∧
      (threadLocalStorageGet ⟨0, 3⟩ 1 6 q).2.gTlsKeyInitialized = 1 :=
  threadLocalStorageGet_retry Proc.fresh [(1, ⟨11, 0⟩, 6), (2, ⟨12, 0⟩, 7)] ⟨11, 0⟩ ⟨0, 3⟩ 1 6
    rfl (by decide) (by decide) rfl

/-! ## What each operation leaves alone -/

theorem keyCreateSuccesses_le_attempts (l : List Effect) :
    keyCreateSuccesses l ≤ keyCreateAttempts l := by
  induction l with
  | nil => simp [keyCreateSuccesses, keyCreateAttempts]
  | cons e l ih =>
    cases e <;> simp [keyCreateSuccesses, keyCreateAttempts, ih]
    split_ifs <;> omega

theorem hdfsThreadDestructor_frame (jni : Jni) (v : Nat) (p q : Proc)
    (h : hdfsThreadDestructor jni v p = .ok q) :
    SlotUntouched p q ∧ q.specific = p.specific := by
  obtain ⟨hreach, hv, state, hl⟩ := hdfsThreadDestructor_ok jni v p q h
  obtain ⟨hf, hk, hks, hsp, fr, hlog, hfr⟩ := hdfsThreadDestructorRun_calls jni v p state hv hl
  rw [hreach] at hf hk hks hsp hlog
  refine ⟨⟨hf, hk, hks, _, hlog, ?_⟩, hsp⟩
  rw [keyCreateAttempts_append, detachScript_no_key_create, keyCreateAttempts_of_frees fr hfr]

theorem threadLocalStorageSet_frame (jni : Jni) (nomem : Int) (tid r : Nat) (p q : Proc)
    (ret : Int) (h : threadLocalStorageSet jni nomem tid r p = .ok (ret, q)) :
    SlotUntouched p q ∧ ret = (pthread_setspecific p.gTlsKey tid r nomem p).1 ∧
    q.specific = (pthread_setspecific p.gTlsKey tid r nomem p).2.specific := by
  obtain ⟨hk, hf, hks, -, hlog⟩ := pthread_setspecific_frame p.gTlsKey tid r nomem p
  by_cases hc : (pthread_setspecific p.gTlsKey tid r nomem p).1 = 0
  · simp only [threadLocalStorageSet, hc, ne_eq, not_true_eq_false, if_false] at h
    cases h
    exact ⟨⟨hf, hk, hks, [], by simp [hlog], rfl⟩, hc.symm, rfl⟩
  · have hp := pthread_setspecific_failed p.gTlsKey tid r nomem p hc
    simp only [threadLocalStorageSet, hc, ne_eq, not_false_eq_true, if_true, hp] at h
    cases hd : hdfsThreadDestructor jni r
        (p.emit (.fprintf .setspecificFailed (pthread_setspecific p.gTlsKey tid r nomem p).1)) with
    | error f => simp [hd] at h
    | ok q1 =>
      simp only [hd] at h
      cases h
      obtain ⟨⟨h1, h2, h3, l, hl, hn⟩, h4⟩ := hdfsThreadDestructor_frame jni r _ _ hd
      refine ⟨⟨h1, h2, h3, Effect.fprintf .setspecificFailed
        (pthread_setspecific p.gTlsKey tid r nomem p).1 :: l, ?_, ?_⟩, rfl, ?_⟩
      · simp [hl, Proc.emit]
      · simpa [keyCreateAttempts] using hn
      · rw [h4, hp]
        rfl

theorem threadLocalStorageCreate_frame (m : MallocOutcome) (p : Proc) :
    SlotUntouched p (threadLocalStorageCreate m p).2 ∧
    (threadLocalStorageCreate m p).2.specific = p.specific := by
  unfold threadLocalStorageCreate
  by_cases h : m.addr = 0
  · simp only [h, if_true]
    exact ⟨⟨rfl, rfl, rfl, [.malloc 0, .fprintf .createOutOfMemory 0],
      by simp [Proc.emit], rfl⟩, rfl⟩
  · simp only [h, if_false]
    exact ⟨⟨rfl, rfl, rfl, [.malloc m.addr], by simp [Proc.emit], rfl⟩, rfl⟩

theorem SlotInv_of_untouched {p q : Proc} (hi : SlotInv p) (h : SlotUntouched p q) :
    SlotInv q := by
  obtain ⟨hf, -, -, l, hl, hn⟩ := h
  have h0 : keyCreateSuccesses l = 0 := by
    have := keyCreateSuccesses_le_attempts l
    omega
  unfold SlotInv at hi ⊢
  rw [hf, hl, keyCreateSuccesses_append, h0]
  simpa using hi

theorem SlotInv_get (kc : KeyCreateOutcome) (tid out : Nat) (p : Proc) (hi : SlotInv p) :
    SlotInv (threadLocalStorageGet kc tid out p).2 := by
  by_cases h0 : p.gTlsKeyInitialized = 0
  · have hs : keyCreateSuccesses p.log = 0 := by
      rcases hi with ⟨-, h⟩ | ⟨h, -⟩
      · exact h
      · rw [h0] at h
        exact absurd h (by decide)
    by_cases hk : kc.ret = 0
    · rw [threadLocalStorageGet_created kc tid out p h0 hk]
      right
      simp [keyCreateSuccesses_append, hs, keyCreateSuccesses]
    · rw [threadLocalStorageGet_failed kc tid out p h0 hk]
      left
      simp [keyCreateSuccesses_append, hs, keyCreateSuccesses, hk, h0]
  · rw [threadLocalStorageGet_provisioned kc tid out p h0]
    exact hi

theorem SlotInv_step (p q : Proc) (c : Call) (r : Ret) (hi : SlotInv p)
    (h : step p c = .ok (r, q)) : SlotInv q := by
  cases c with
  | create m =>
    simp only [step, Except.ok.injEq, Prod.mk.injEq] at h
    rw [← h.2]
    exact SlotInv_of_untouched hi (threadLocalStorageCreate_frame m p).1
  | get tid kc out =>
    simp only [step, Except.ok.injEq, Prod.mk.injEq] at h
    rw [← h.2]
    exact SlotInv_get kc tid out p hi
  | set tid state nomem jni =>
    simp only [step] at h
    cases hs : threadLocalStorageSet jni nomem tid state p with
    | error f => simp [hs] at h
    | ok x =>
      obtain ⟨ret, q1⟩ := x
      simp only [hs, Except.ok.injEq, Prod.mk.injEq] at h
      rw [← h.2]
      exact SlotInv_of_untouched hi (threadLocalStorageSet_frame jni nomem tid state p q1 ret hs).1
  | cleanup v jni =>
    simp only [step] at h
    cases hs : hdfsThreadDestructor jni v p with
    | error f => simp [hs] at h
    | ok q1 =>
      simp only [hs, Except.ok.injEq, Prod.mk.injEq] at h
      rw [← h.2]
      exact SlotInv_of_untouched hi (hdfsThreadDestructor_frame jni v p q1 hs).1

theorem SlotInv_run (tr : List Call) (p q : Proc) (h : List (Call × Ret)) (hi : SlotInv p)
    (hr : run p tr = .ok (h, q)) : SlotInv q := by
  induction tr generalizing p q h with
  | nil =>
    simp only [run, Except.ok.injEq, Prod.mk.injEq] at hr
    rw [← hr.2]
    exact hi
  | cons c cs ih =>
    simp only [run] at hr
    cases hs : step p c with
    | error f => simp [hs] at hr
    | ok x =>
      obtain ⟨r, p1⟩ := x
      simp only [hs] at hr
      cases hrest : run p1 cs with
      | error f => simp [hrest] at hr
      | ok y =>
        obtain ⟨h1, q1⟩ := y
        simp only [hrest, Except.ok.injEq, Prod.mk.injEq] at hr
        rw [← hr.2]
        exact ih p1 q1 h1 (SlotInv_step p p1 c r hi hs) hrest

/-! ## Provisioning happens at most once -/

theorem since_of_untouched {p q : Proc} (h : SlotUntouched p q) :
    keyCreateAttempts (q.since p) = 0 := by
  obtain ⟨-, -, -, l, hl, hn⟩ := h
  rw [since_of_log hl]
  exact hn

/-- A call other than `get` leaves the provisioning of the slot alone. -/
theorem step_untouched (p q : Proc) (c : Call) (r : Ret) (h : step p c = .ok (r, q))
    (hc : ∀ tid kc out, c ≠ .get tid kc out) : SlotUntouched p q := by
  cases c with
  | create m =>
    simp only [step, Except.ok.injEq, Prod.mk.injEq] at h
    rw [← h.2]
    exact (threadLocalStorageCreate_frame m p).1
  | get tid kc out => exact absurd rfl (hc tid kc out)
  | set tid state nomem jni =>
    simp only [step] at h
    cases hs : threadLocalStorageSet jni nomem tid state p with
    | error f => simp [hs] at h
    | ok x =>
      obtain ⟨ret, q1⟩ := x
      simp only [hs, Except.ok.injEq, Prod.mk.injEq] at h
      rw [← h.2]
      exact (threadLocalStorageSet_frame jni nomem tid state p q1 ret hs).1
  | cleanup v jni =>
    simp only [step] at h
    cases hs : hdfsThreadDestructor jni v p with
    | error f => simp [hs] at h
    | ok q1 =>
      simp only [hs, Except.ok.injEq, Prod.mk.injEq] at h
      rw [← h.2]
      exact (hdfsThreadDestructor_frame jni v p q1 hs).1

/-- What one call can do to the provisioning of the slot. -/
theorem step_slot (p q : Proc) (c : Call) (r : Ret) (h : step p c = .ok (r, q)) :
    (keyCreateAttempts (q.since p) ≠ 0 →
      (∃ tid kc out, c = .get tid kc out) ∧ p.gTlsKeyInitialized = 0) ∧
    (q.gTlsKeyInitialized ≠ p.gTlsKeyInitialized →
      p.gTlsKeyInitialized = 0 ∧ q.gTlsKeyInitialized = 1 ∧
      ∃ tid kc out, c = .get tid kc out ∧ kc.ret = 0) ∧
    (q.gTlsKey ≠ p.gTlsKey →
      p.gTlsKeyInitialized = 0 ∧ ∃ tid kc out, c = .get tid kc out ∧ kc.ret = 0) ∧
    (p.gTlsKeyInitialized ≠ 0 →
      q.gTlsKeyInitialized = p.gTlsKeyInitialized ∧ q.gTlsKey = p.gTlsKey) := by
  by_cases hc : ∃ tid kc out, c = .get tid kc out
  · obtain ⟨tid, kc, out, rfl⟩ := hc
    simp only [step, Except.ok.injEq, Prod.mk.injEq] at h
    obtain ⟨-, hq⟩ := h
    by_cases h0 : p.gTlsKeyInitialized = 0
    · by_cases hk : kc.ret = 0
      · rw [threadLocalStorageGet_created kc tid out p h0 hk] at hq
        subst hq
        refine ⟨fun _ => ⟨⟨tid, kc, out, rfl⟩, h0⟩, fun _ => ⟨h0, rfl, tid, kc, out, rfl, hk⟩,
          fun _ => ⟨h0, tid, kc, out, rfl, hk⟩, fun h => absurd h0 h⟩
      · rw [threadLocalStorageGet_failed kc tid out p h0 hk] at hq
        subst hq
        refine ⟨fun _ => ⟨⟨tid, kc, out, rfl⟩, h0⟩, fun h => absurd rfl h,
          fun h => absurd rfl h, fun h => absurd h0 h⟩
    · rw [threadLocalStorageGet_provisioned kc tid out p h0] at hq
      subst hq
      refine ⟨fun h => ?_, fun h => absurd rfl h, fun h => absurd rfl h, fun _ => ⟨rfl, rfl⟩⟩
      simp [Proc.since, keyCreateAttempts] at h
  · have hu := step_untouched p q c r h (fun tid kc out e => hc ⟨tid, kc, out, e⟩)
    have hn := since_of_untouched hu
    obtain ⟨hf, hk, -⟩ := hu
    exact ⟨fun h => absurd hn h, fun h => absurd hf h, fun h => absurd hk h, fun _ => ⟨hf, hk⟩⟩

/-- C7: along every sequential run of create/get/set/cleanup calls from the start of the
process, and for every call `c` made from the state `p` reached: `pthread_key_create` is
called during `c` only if `c` is a `get` and the flag is `0` in `p`; the flag changes
during `c` only from `0` to `1` and only if `c` is a `get` whose key creation returned
`0`; the key changes under the same condition only; once the flag is not `0`, no call
(`set` and the destructor included) changes the flag or the key; and the number of key
creations that have succeeded is at most 1 before and after `c`. -/
theorem slot_provisioned_at_most_once (keys : Nat → Bool) (specific : Nat → Nat → Nat)
    (heap : Nat → Option Block) (tr : List Call) (h : List (Call × Ret))
    (p q : Proc) (c : Call) (r : Ret)
    (hrun : run (Proc.boot keys specific heap) tr = .ok (h, p))
    (hstep : step p c = .ok (r, q)) :
    (keyCreateAttempts (q.since p) ≠ 0 →
      (∃ tid kc out, c = .get tid kc out) ∧ p.gTlsKeyInitialized = 0) ∧
    (q.gTlsKeyInitialized ≠ p.gTlsKeyInitialized →
      p.gTlsKeyInitialized = 0 ∧ q.gTlsKeyInitialized = 1 ∧
      ∃ tid kc out, c = .get tid kc out ∧ kc.ret = 0) ∧
    (q.gTlsKey ≠ p.gTlsKey →
      p.gTlsKeyInitialized = 0 ∧ ∃ tid kc out, c = .get tid kc out ∧ kc.ret = 0) ∧
    (p.gTlsKeyInitialized ≠ 0 →
      q.gTlsKeyInitialized = p.gTlsKeyInitialized ∧ q.gTlsKey = p.gTlsKey) ∧
    keyCreateSuccesses p.log ≤ 1 ∧ keyCreateSuccesses q.log ≤ 1 := by
  have hboot : SlotInv (Proc.boot keys specific heap) := Or.inl ⟨rfl, rfl⟩
  have hp : SlotInv p := SlotInv_run tr _ p h hboot hrun
  have hq : SlotInv q := SlotInv_step p q c r hp hstep
  obtain ⟨h1, h2, h3, h4⟩ := step_slot p q c r hstep
  refine ⟨h1, h2, h3, h4, ?_, ?_⟩
  · rcases hp with ⟨-, h⟩ | ⟨-, h⟩ <;> omega
  · rcases hq with ⟨-, h⟩ | ⟨-, h⟩ <;> omega

/-- Witness for C7: on a fresh process a first `get` fails with code 11; the `get` that
follows creates key 3: this call makes the only key creation that succeeds and moves the
flag from `0` to `1`. -/
theorem slot_provisioned_at_most_once_witness :
    (keyCreateAttempts (sampleProvisioned.since sampleUnprovisioned) ≠ 0 →
      (∃ tid kc out, Call.get 1 ⟨0, 3⟩ 0 = .get tid kc out) ∧
      sampleUnprovisioned.gTlsKeyInitialized = 0) ∧
    (sampleProvisioned.gTlsKeyInitialized ≠ sampleUnprovisioned.gTlsKeyInitialized →
      sampleUnprovisioned.gTlsKeyInitialized = 0 ∧ sampleProvisioned.gTlsKeyInitialized = 1 ∧
      ∃ tid kc out, Call.get 1 ⟨0, 3⟩ 0 = .get tid kc out ∧ kc.ret = 0) ∧
    (sampleProvisioned.gTlsKey ≠ sampleUnprovisioned.gTlsKey →
      sampleUnprovisioned.gTlsKeyInitialized = 0 ∧
      ∃ tid kc out, Call.get 1 ⟨0, 3⟩ 0 = .get tid kc out ∧ kc.ret = 0) ∧
    (sampleUnprovisioned.gTlsKeyInitialized ≠ 0 →
      sampleProvisioned.gTlsKeyInitialized = sampleUnprovisioned.gTlsKeyInitialized ∧
      sampleProvisioned.gTlsKey = sampleUnprovisioned.gTlsKey) ∧
    keyCreateSuccesses sampleUnprovisioned.log ≤ 1 ∧
    keyCreateSuccesses sampleProvisioned.log ≤ 1 :=
  slot_provisioned_at_most_once (fun _ => false) (fun _ _ => 0) (fun _ => none)
    [.get 1 ⟨11, 0⟩ 0] [(.get 1 ⟨11, 0⟩ 0, .got 11 0)]
    sampleUnprovisioned sampleProvisioned (.get 1 ⟨0, 3⟩ 0) (.got 0 0) rfl rfl

/-! ## What `get` yields -/

theorem sinceProvisioned_of_not_provisioned (h : List (Call × Ret))
    (hp : provisioned h = false) : sinceProvisioned h = [] := by
  induction h with
  | nil => rfl
  | cons e h ih =>
    obtain ⟨c, r⟩ := e
    cases r with
    | got ret out =>
      by_cases hr : ret = 0
      · simp [provisioned, hr] at hp
      · simp only [provisioned, hr, if_false] at hp
        simp [sinceProvisioned, hr, ih hp]
    | created v => exact ih (by simpa [provisioned] using hp)
    | stored ret => exact ih (by simpa [provisioned] using hp)
    | cleaned => exact ih (by simpa [provisioned] using hp)

/-- One call on a provisioned slot: the slot stays provisioned with the same key, and the
values bound to the key change exactly as the history entry says. -/
theorem step_provisioned (p q : Proc) (c : Call) (r : Ret) (hp : Provisioned p)
    (h : step p c = .ok (r, q)) :
    Provisioned q ∧ q.gTlsKey = p.gTlsKey ∧
    ∀ t, q.specific q.gTlsKey t = lastStoredFrom t (p.specific p.gTlsKey t) [(c, r)] := by
  cases c with
  | create m =>
    simp only [step, Except.ok.injEq, Prod.mk.injEq] at h
    obtain ⟨hr, hq⟩ := h
    obtain ⟨⟨hf, hk, hks, -⟩, hsp⟩ := threadLocalStorageCreate_frame m p
    rw [hq] at hf hk hks hsp
    refine ⟨⟨by rw [hf]; exact hp.1, by rw [hks, hk]; exact hp.2⟩, hk, fun t => ?_⟩
    rw [hsp, hk, ← hr]
    rfl
  | get tid kc out =>
    simp only [step, Except.ok.injEq, Prod.mk.injEq] at h
    obtain ⟨hr, hq⟩ := h
    rw [threadLocalStorageGet_provisioned kc tid out p hp.1] at hq hr
    subst hq
    refine ⟨hp, rfl, fun t => ?_⟩
    rw [← hr]
    rfl
  | set tid state nomem jni =>
    simp only [step] at h
    cases hs : threadLocalStorageSet jni nomem tid state p with
    | error f => simp [hs] at h
    | ok x =>
      obtain ⟨ret, q1⟩ := x
      simp only [hs, Except.ok.injEq, Prod.mk.injEq] at h
      obtain ⟨hr, hq⟩ := h
      obtain ⟨⟨hf, hk, hks, -⟩, hret, hsp⟩ :=
        threadLocalStorageSet_frame jni nomem tid state p q1 ret hs
      rw [hq] at hf hk hks hsp
      refine ⟨⟨by rw [hf]; exact hp.1, by rw [hks, hk]; exact hp.2⟩, hk, fun t => ?_⟩
      rw [hsp, hk, ← hr, hret]
      simp only [lastStoredFrom, pthread_setspecific, hp.2]
      by_cases hn : nomem = 0
      · by_cases ht : t = tid
        · subst ht
          simp [hn, upd]
        · have ht2 : ¬ tid = t := fun e => ht e.symm
          simp [hn, upd, ht, ht2]
      · simp [hn]
  | cleanup v jni =>
    simp only [step] at h
    cases hs : hdfsThreadDestructor jni v p with
    | error f => simp [hs] at h
    | ok q1 =>
      simp only [hs, Except.ok.injEq, Prod.mk.injEq] at h
      obtain ⟨hr, hq⟩ := h
      obtain ⟨⟨hf, hk, hks, -⟩, hsp⟩ := hdfsThreadDestructor_frame jni v p q1 hs
      rw [hq] at hf hk hks hsp
      refine ⟨⟨by rw [hf]; exact hp.1, by rw [hks, hk]; exact hp.2⟩, hk, fun t => ?_⟩
      rw [hsp, hk, ← hr]
      rfl

theorem lastStoredFrom_cons (t cur : Nat) (e : Call × Ret) (h : List (Call × Ret)) :
    lastStoredFrom t cur (e :: h) = lastStoredFrom t (lastStoredFrom t cur [e]) h := by
  obtain ⟨c, r⟩ := e
  cases c <;> cases r <;> simp [lastStoredFrom]

/-- A run on a provisioned slot. -/
theorem run_provisioned (tr : List Call) (p q : Proc) (h : List (Call × Ret))
    (hp : Provisioned p) (hr : run p tr = .ok (h, q)) :
    Provisioned q ∧ q.gTlsKey = p.gTlsKey ∧
    ∀ t, q.specific q.gTlsKey t = lastStoredFrom t (p.specific p.gTlsKey t) h := by
  induction tr generalizing p q h with
  | nil =>
    simp only [run, Except.ok.injEq, Prod.mk.injEq] at hr
    obtain ⟨hh, hq⟩ := hr
    subst hh hq
    exact ⟨hp, rfl, fun t => rfl⟩
  | cons c cs ih =>
    simp only [run] at hr
    cases hs : step p c with
    | error f => simp [hs] at hr
    | ok x =>
      obtain ⟨r, p1⟩ := x
      simp only [hs] at hr
      cases hrest : run p1 cs with
      | error f => simp [hrest] at hr
      | ok y =>
        obtain ⟨h1, q1⟩ := y
        simp only [hrest, Except.ok.injEq, Prod.mk.injEq] at hr
        obtain ⟨hh, hq⟩ := hr
        subst hh hq
        obtain ⟨hp1, hk1, hv1⟩ := step_provisioned p p1 c r hp hs
        obtain ⟨hpq, hkq, hvq⟩ := ih p1 q1 h1 hp1 hrest
        refine ⟨hpq, by rw [hkq, hk1], fun t => ?_⟩
        rw [hvq t, hv1 t, ← lastStoredFrom_cons]

/-- A run that starts with the flag at `0`: either no `get` has returned `0` and the flag
is still `0`, or the slot is provisioned and holds, for every thread, the record of its
most recent successful `set` since the provisioning. -/
theorem run_from_unprovisioned (tr : List Call) (p q : Proc) (h : List (Call × Ret))
    (h0 : p.gTlsKeyInitialized = 0) (hr : run p tr = .ok (h, q)) :
    (provisioned h = false ∧ q.gTlsKeyInitialized = 0) ∨
    (provisioned h = true ∧ Provisioned q ∧
      ∀ t, q.specific q.gTlsKey t = lastStoredFrom t 0 (sinceProvisioned h)) := by
  induction tr generalizing p q h with
  | nil =>
    simp only [run, Except.ok.injEq, Prod.mk.injEq] at hr
    obtain ⟨hh, hq⟩ := hr
    subst hh hq
    exact Or.inl ⟨rfl, h0⟩
  | cons c cs ih =>
    simp only [run] at hr
    cases hs : step p c with
    | error f => simp [hs] at hr
    | ok x =>
      obtain ⟨r, p1⟩ := x
      simp only [hs] at hr
      cases hrest : run p1 cs with
      | error f => simp [hrest] at hr
      | ok y =>
        obtain ⟨h1, q1⟩ := y
        simp only [hrest, Except.ok.injEq, Prod.mk.injEq] at hr
        obtain ⟨hh, hq⟩ := hr
        subst hh hq
        by_cases hc : ∃ tid kc out, c = .get tid kc out
        · obtain ⟨tid, kc, out, rfl⟩ := hc
          simp only [step, Except.ok.injEq, Prod.mk.injEq] at hs
          obtain ⟨hr1, hp1⟩ := hs
          by_cases hk : kc.ret = 0
          · rw [threadLocalStorageGet_created kc tid out p h0 hk] at hr1 hp1
            subst hr1 hp1
            right
            have hprov : Provisioned
                { p with gTlsKey := kc.key, gTlsKeyInitialized := 1,
                         keys := upd p.keys kc.key true,
                         specific := upd p.specific kc.key (fun _ => 0),
                         log := p.log ++ [.pthread_key_create 0 kc.key] } :=
              ⟨by simp, by simp [upd]⟩
            obtain ⟨hpq, -, hvq⟩ := run_provisioned cs _ q1 h1 hprov hrest
            refine ⟨by simp [provisioned], hpq, fun t => ?_⟩
            rw [hvq t]
            simp [sinceProvisioned, upd]
          · rw [threadLocalStorageGet_failed kc tid out p h0 hk] at hr1 hp1
            subst hr1 hp1
            have := ih _ q1 h1 (by exact h0) hrest
            simpa [provisioned, sinceProvisioned, hk] using this
        · have hu := step_untouched p p1 c r hs (fun tid kc out e => hc ⟨tid, kc, out, e⟩)
          have hrg : ∀ ret out, r ≠ .got ret out := by
            intro ret out e
            subst e
            cases c with
            | create m => simp [step] at hs
            | get tid kc out => exact hc ⟨tid, kc, out, rfl⟩
            | set tid state nomem jni =>
              simp only [step] at hs
              cases hx : threadLocalStorageSet jni nomem tid state p with
              | error f => simp [hx] at hs
              | ok x => simp [hx] at hs
            | cleanup v jni =>
              simp only [step] at hs
              cases hx : hdfsThreadDestructor jni v p with
              | error f => simp [hx] at hs
              | ok x => simp [hx] at hs
          have := ih p1 q1 h1 (by rw [hu.1]; exact h0) hrest
          cases r with
          | got ret out => exact absurd rfl (hrg ret out)
          | created v => simpa [provisioned, sinceProvisioned] using this
          | stored ret => simpa [provisioned, sinceProvisioned] using this
          | cleaned => simpa [provisioned, sinceProvisioned] using this

/-- A `set` by another thread does not change what `get` yields, in any state. -/
theorem threadLocalStorageGet_isolated (jni : Jni) (nomem : Int) (t t2 r : Nat) (p q : Proc)
    (ret : Int) (kc : KeyCreateOutcome) (out : Nat) (ht : t2 ≠ t)
    (h : threadLocalStorageSet jni nomem t2 r p = .ok (ret, q)) :
    (threadLocalStorageGet kc t out q).1 = (threadLocalStorageGet kc t out p).1 := by
  obtain ⟨⟨hf, hk, hks, -⟩, -, hsp⟩ := threadLocalStorageSet_frame jni nomem t2 r p q ret h
  by_cases h0 : p.gTlsKeyInitialized = 0
  · have h0q : q.gTlsKeyInitialized = 0 := by rw [hf]; exact h0
    by_cases hc : kc.ret = 0
    · rw [threadLocalStorageGet_created kc t out p h0 hc,
        threadLocalStorageGet_created kc t out q h0q hc]
    · rw [threadLocalStorageGet_failed kc t out p h0 hc,
        threadLocalStorageGet_failed kc t out q h0q hc]
  · have h0q : q.gTlsKeyInitialized ≠ 0 := by rw [hf]; exact h0
    rw [threadLocalStorageGet_provisioned kc t out p h0,
      threadLocalStorageGet_provisioned kc t out q h0q]
    have ht2 : ¬ t = t2 := fun e => ht e.symm
    simp only [pthread_getspecific, hks, hk, hsp, pthread_setspecific]
    split_ifs <;> simp_all [upd]

/-- Counterexample to C1 as stated: thread 1 stores record 1 before any `get`; `gTlsKey`
is still `0`, a key that belongs to somebody else, and the store reports success. The
`get` that follows provisions the slot with key 1, returns `0` and yields `NULL`, not
the record of the most recent successful `set` of the thread. -/
theorem set_before_provisioning_is_lost :
    returned (run foreignKeyProc [.set 1 1 0 workingJni, .get 1 ⟨0, 1⟩ 0]) =
      .ok [.stored 0, .got 0 0] ∧
    lastStoredFrom 1 0 [(.set 1 1 0 workingJni, .stored 0)] = 1 := by
  refine ⟨rfl, rfl⟩

/-- C1 (amended): after every run of calls from the start of the process, a `get` by thread
`t` made when the slot is provisioned (an earlier `get` returned `0`) or gets provisioned
by this call (its key creation succeeds) returns `0` and yields the record passed to the
most recent `set` of `t` that reported success since the slot was provisioned, `NULL`
when there is none; and a `set` by another thread never changes what `get` yields
on `t`. -/
theorem threadLocalStorageGet_yields_last_stored (keys : Nat → Bool)
    (specific : Nat → Nat → Nat) (heap : Nat → Option Block) (tr : List Call)
    (h : List (Call × Ret)) (p : Proc) (t : Nat) (kc : KeyCreateOutcome) (out : Nat)
    (hrun : run (Proc.boot keys specific heap) tr = .ok (h, p))
    (hprov : provisioned h = true ∨ kc.ret = 0) :
    (threadLocalStorageGet kc t out p).1 = ⟨0, lastStoredFrom t 0 (sinceProvisioned h)⟩ ∧
    ∀ (jni : Jni) (nomem : Int) (t2 r : Nat) (ret : Int) (q : Proc), t2 ≠ t →
      threadLocalStorageSet jni nomem t2 r p = .ok (ret, q) →
      (threadLocalStorageGet kc t out q).1 = (threadLocalStorageGet kc t out p).1 := by
  refine ⟨?_, fun jni nomem t2 r ret q ht hs =>
    threadLocalStorageGet_isolated jni nomem t t2 r p q ret kc out ht hs⟩
  rcases run_from_unprovisioned tr _ p h rfl hrun with ⟨hn, h0⟩ | ⟨-, hp, hv⟩
  · have hk : kc.ret = 0 := by
      rcases hprov with hp | hk
      · rw [hn] at hp
        exact absurd hp (by decide)
      · exact hk
    rw [threadLocalStorageGet_created kc t out p h0 hk,
      sinceProvisioned_of_not_provisioned h hn]
    rfl
  · rw [threadLocalStorageGet_provisioned kc t out p hp.1]
    simp [pthread_getspecific, hp.2, hv t]

/-- Witness for C1 (amended): after `sampleRun`, in which thread 1 stores record 1 once the
slot is provisioned, a `get` by thread 1 yields record 1. -/
theorem threadLocalStorageGet_yields_last_stored_witness :
    (threadLocalStorageGet ⟨0, 4⟩ 1 0 sampleEnd).1 = ⟨0, 1⟩ :=
  (threadLocalStorageGet_yields_last_stored (fun _ => false) (fun _ _ => 0) (fun _ => none)
    sampleRun
    [(.get 1 ⟨11, 0⟩ 0, .got 11 0), (.get 1 ⟨0, 3⟩ 0, .got 0 0),
     (.create recycledBlock, .created 1), (.set 1 1 0 workingJni, .stored 0)]
    sampleEnd 1 ⟨0, 4⟩ 0 rfl (Or.inl rfl)).1

/-! ## Threads inside `threadLocalStorageGet` at the same time -/

theorem runSchedule_append (c : Conc) (l m : List (Nat × KeyCreateOutcome)) :
    runSchedule c (l ++ m) = runSchedule (runSchedule c l) m := by
  induction l generalizing c with
  | nil => rfl
  | cons g gs ih => simp [runSchedule, ih]

theorem upd_upd {α : Type} (f : Nat → α) (a : Nat) (v w : α) :
    upd (upd f a v) a w = upd f a w := by
  funext x
  simp only [upd]
  split_ifs <;> rfl

theorem upd_same {α : Type} (f : Nat → α) (a : Nat) (v : α) : upd f a v a = v := by
  simp [upd]

theorem upd_other {α : Type} (f : Nat → α) (a b : Nat) (v : α) (h : b ≠ a) :
    upd f a v b = f b := by
  simp [upd, h]

/-- Executed without interruption, the statements of one activation are the function
`threadLocalStorageGet`. -/
theorem getMicroStep_uninterrupted (kc : KeyCreateOutcome) (tid : Nat) (c : Conc)
    (h : (c.frames tid).pc = .testFlag) :
    runSchedule c [(tid, kc), (tid, kc), (tid, kc), (tid, kc)] =
      { proc := (threadLocalStorageGet kc tid (c.frames tid).out c.proc).2,
        frames := upd c.frames tid
          ⟨.returned, (threadLocalStorageGet kc tid (c.frames tid).out c.proc).1.ret,
           (threadLocalStorageGet kc tid (c.frames tid).out c.proc).1.out⟩ } := by
  by_cases h0 : c.proc.gTlsKeyInitialized = 0
  · by_cases hk : kc.ret = 0
    · rw [threadLocalStorageGet_created kc tid _ c.proc h0 hk]
      simp [runSchedule, getMicroStep, h, h0, hk, upd_same, upd_upd, pthread_key_create,
        Proc.emit, pthread_getspecific]
    · rw [threadLocalStorageGet_failed kc tid _ c.proc h0 hk]
      simp [runSchedule, getMicroStep, h, h0, hk, upd_same, upd_upd, pthread_key_create,
        Proc.emit]
  · rw [threadLocalStorageGet_provisioned kc tid _ c.proc h0]
    simp [runSchedule, getMicroStep, h, h0, upd_same, upd_upd]

/-- Threads that run `threadLocalStorageGet` one after the other on a slot whose flag is
set: the process state does not change, every one of them returns `0`, and the other
activations are left alone. -/
theorem serial_on_provisioned (gs : List (Nat × KeyCreateOutcome)) (c : Conc)
    (h1 : c.proc.gTlsKeyInitialized ≠ 0) (hnd : (gs.map Prod.fst).Nodup)
    (hpc : ∀ x ∈ gs, (c.frames x.1).pc = .testFlag) :
    (runSchedule c (serial gs)).proc = c.proc ∧
    (∀ x ∈ gs, ((runSchedule c (serial gs)).frames x.1).pc = .returned ∧
      ((runSchedule c (serial gs)).frames x.1).ret = 0) ∧
    (∀ t, t ∉ gs.map Prod.fst → (runSchedule c (serial gs)).frames t = c.frames t) := by
  induction gs generalizing c with
  | nil => exact ⟨rfl, fun x hx => absurd hx (List.not_mem_nil x), fun t _ => rfl⟩
  | cons g gs ih =>
    obtain ⟨tid, kc⟩ := g
    have hhead : (c.frames tid).pc = .testFlag := hpc (tid, kc) (List.mem_cons_self _ _)
    simp only [List.map_cons, List.nodup_cons] at hnd
    obtain ⟨hnotin, hnd2⟩ := hnd
    have hstep := getMicroStep_uninterrupted kc tid c hhead
    rw [threadLocalStorageGet_provisioned kc tid _ c.proc h1] at hstep
    simp only at hstep
    have hpc2 : ∀ x ∈ gs, ((runSchedule c [(tid, kc), (tid, kc), (tid, kc), (tid, kc)]).frames
        x.1).pc = .testFlag := by
      intro x hx
      have hne : x.1 ≠ tid := by
        intro e
        exact hnotin (e ▸ List.mem_map_of_mem Prod.fst hx)
      rw [hstep]
      simp only [upd_other _ _ _ _ hne]
      exact hpc x (List.mem_cons_of_mem _ hx)
    have h12 : (runSchedule c [(tid, kc), (tid, kc), (tid, kc), (tid, kc)]).proc.gTlsKeyInitialized
        ≠ 0 := by
      rw [hstep]
      exact h1
    obtain ⟨ihp, ihf, iho⟩ := ih _ h12 hnd2 hpc2
    simp only [serial, runSchedule_append]
    refine ⟨?_, ?_, ?_⟩
    · rw [ihp, hstep]
    · intro x hx
      rcases List.mem_cons.1 hx with rfl | hx
      · rw [iho _ hnotin, hstep]
        simp [upd_same]
      · exact ihf x hx
    · intro t ht
      simp only [List.map_cons, List.mem_cons, not_or] at ht
      rw [iho t ht.2, hstep]
      simp only [upd_other _ _ _ _ ht.1]

/-- Counterexample to C8 as stated: two threads enter `threadLocalStorageGet` on a fresh
process with no lock and alternate statement by statement. Both read the flag as `0`,
both call `pthread_key_create`, both calls succeed: two keys are registered, and both
activations return `0`. -/
theorem racing_gets_create_two_keys :
    keyCreateAttempts (runSchedule (Conc.start Proc.fresh) racingSchedule).proc.log = 2 ∧
    keyCreateSuccesses (runSchedule (Conc.start Proc.fresh) racingSchedule).proc.log = 2 ∧
    (runSchedule (Conc.start Proc.fresh) racingSchedule).frames 1 = ⟨.returned, 0, 0⟩ ∧
    (runSchedule (Conc.start Proc.fresh) racingSchedule).frames 2 = ⟨.returned, 0, 0⟩ := by
  refine ⟨rfl, rfl, rfl, rfl⟩

/-- C8 (amended): when the threads of a list (pairwise different) execute their first
`threadLocalStorageGet` one after the other, each running to its `return` before the
next one starts, and the key creation succeeds, then `pthread_key_create` is called
exactly once, the slot ends provisioned, and every one of the calls returns `0`. -/
theorem serial_gets_provision_once (keys : Nat → Bool) (specific : Nat → Nat → Nat)
    (heap : Nat → Option Block) (g : Nat × KeyCreateOutcome)
    (gs : List (Nat × KeyCreateOutcome))
    (hnd : ((g :: gs).map Prod.fst).Nodup) (hk : g.2.ret = 0) :
    keyCreateAttempts
      (runSchedule (Conc.start (Proc.boot keys specific heap)) (serial (g :: gs))).proc.log = 1 ∧
    Provisioned
      (runSchedule (Conc.start (Proc.boot keys specific heap)) (serial (g :: gs))).proc ∧
    ∀ x ∈ g :: gs,
      ((runSchedule (Conc.start (Proc.boot keys specific heap)) (serial (g :: gs))).frames
        x.1).pc = .returned ∧
      ((runSchedule (Conc.start (Proc.boot keys specific heap)) (serial (g :: gs))).frames
        x.1).ret = 0 := by
  obtain ⟨tid, kc⟩ := g
  simp only [List.map_cons, List.nodup_cons] at hnd
  obtain ⟨hnotin, hnd2⟩ := hnd
  have hstep := getMicroStep_uninterrupted kc tid (Conc.start (Proc.boot keys specific heap)) rfl
  rw [threadLocalStorageGet_created kc tid _ _ rfl hk] at hstep
  simp only at hstep
  have hpc2 : ∀ x ∈ gs, ((runSchedule (Conc.start (Proc.boot keys specific heap))
      [(tid, kc), (tid, kc), (tid, kc), (tid, kc)]).frames x.1).pc = .testFlag := by
    intro x hx
    have hne : x.1 ≠ tid := by
      intro e
      exact hnotin (e ▸ List.mem_map_of_mem Prod.fst hx)
    rw [hstep]
    simp only [upd_other _ _ _ _ hne]
    rfl
  have h12 : (runSchedule (Conc.start (Proc.boot keys specific heap))
      [(tid, kc), (tid, kc), (tid, kc), (tid, kc)]).proc.gTlsKeyInitialized ≠ 0 := by
    rw [hstep]
    simp
  obtain ⟨ihp, ihf, iho⟩ := serial_on_provisioned gs _ h12 hnd2 hpc2
  simp only [serial, runSchedule_append]
  rw [ihp]
  refine ⟨?_, ?_, ?_⟩
  · rw [hstep]
    simp [Conc.start, Proc.boot, keyCreateAttempts]
  · rw [hstep]
    exact ⟨by simp, by simp [Conc.start, Proc.boot, upd_same]⟩
  · intro x hx
    rcases List.mem_cons.1 hx with rfl | hx
    · rw [iho _ hnotin, hstep]
      simp [upd_same]
    · exact ihf x hx

/-- Witness for C8 (amended): threads 1, 2 and 3 one after the other on a fresh process. -/
theorem serial_gets_provision_once_witness :
    keyCreateAttempts
      (runSchedule (Conc.start Proc.fresh) (serial [(1, ⟨0, 1⟩), (2, ⟨0, 2⟩), (3, ⟨0, 3⟩)])).proc.log
        = 1 ∧
    Provisioned
      (runSchedule (Conc.start Proc.fresh) (serial [(1, ⟨0, 1⟩), (2, ⟨0, 2⟩), (3, ⟨0, 3⟩)])).proc ∧
    ∀ x ∈ [((1 : Nat), (⟨0, 1⟩ : KeyCreateOutcome)), (2, ⟨0, 2⟩), (3, ⟨0, 3⟩)],
      ((runSchedule (Conc.start Proc.fresh) (serial [(1, ⟨0, 1⟩), (2, ⟨0, 2⟩), (3, ⟨0, 3⟩)])).frames
        x.1).pc = .returned ∧
      ((runSchedule (Conc.start Proc.fresh) (serial [(1, ⟨0, 1⟩), (2, ⟨0, 2⟩), (3, ⟨0, 3⟩)])).frames
        x.1).ret = 0 :=
  serial_gets_provision_once (fun _ => false) (fun _ _ => 0) (fun _ => none) (1, ⟨0, 1⟩)
    [(2, ⟨0, 2⟩), (3, ⟨0, 3⟩)] (by decide) rfl

end Hdfs
